import Mathlib

/-!
Verification of the `micro_http` crate (a minimal HTTP/1.x server library).

This file gives a shallow embedding of the crate's codec and server logic:
byte streams are `List Nat` (each element one byte), Rust `&str` operations
are modelled byte-for-byte (UTF-8 validation, `split`, `trim`,
`to_lowercase`, `parse::<i32>`), machine integers are `Int`/`Nat` with
explicit two's-complement ranges where overflow matters, and fallible Rust
functions returning `Result` become functions into `Except`.

The crate's several error enums (`RequestError`, `MessageError`,
`ResponseError` in `common/mod.rs` and the variants referenced from
`headers.rs`) are mutually inconsistent in the source (e.g. `headers.rs`
returns `RequestError::InvalidHeader`, a variant the `RequestError` enum
does not declare); they are embedded here as one merged enum `HttpError`
that has a constructor for every variant the source mentions.
-/

/-- Bytes of CR and LF and SP, as in `common/mod.rs` (`ascii` module). -/
def CR : Nat := 13

/-- Byte of LF. -/
def LF : Nat := 10

/-- Byte of SP. -/
def SP : Nat := 32

/-- CRLF_LEN from `common/mod.rs`. -/
def CRLF_LEN : Nat := 2

/-- Conversion of a Lean string literal (ASCII in this file) to its byte list. -/
def strBytes (s : String) : List Nat :=
  s.data.map Char.toNat

/-- Merged error enum covering every error variant the source files mention
(see the header comment: the source's separate enums do not typecheck
against one another, so the embedding merges them). -/
inductive HttpError where
  | invalidHttpMethod
  | invalidHttpVersion
  | invalidUri
  | invalidRequest
  | invalidHeader
  | unsupportedHeader
  | invalidStatusCode
  | invalidResponse
  | ioError
deriving DecidableEq, Repr

/-- Embedding of `request.rs::find`: position of the first window of
`bytes` equal to `sequence` (`bytes.windows(sequence.len()).position(...)`).
`findFrom bytes seq i` searches the suffix of `bytes`, offsetting by `i`. -/
def findFrom (bytes seq : List Nat) (i : Nat) : Option Nat :=
  match bytes with
  | [] => none
  | _ :: t => if seq.isPrefixOf bytes then some i else findFrom t seq (i + 1)

/-- Embedding of `request.rs::find` (`sequence` is nonempty at every call
site, for which `findFrom` agrees with `windows(..).position(..)`). -/
def find (bytes seq : List Nat) : Option Nat :=
  findFrom bytes seq 0

/-- One-byte-at-a-time UTF-8 validator: `expect` holds the admissible
ranges of the pending continuation bytes of the current multi-byte
sequence (empty when the next byte must be a lead byte).  The ranges are
the standard UTF-8 table (RFC 3629), which is what Rust's
`str::from_utf8` / `String::from_utf8` enforce (no surrogates, no
overlong encodings). -/
def validUtf8Go : List Nat → List (Nat × Nat) → Bool
  | [], expect => expect.isEmpty
  | b :: rest, [] =>
    if b < 0x80 then validUtf8Go rest []
    else if 0xC2 ≤ b ∧ b ≤ 0xDF then validUtf8Go rest [(0x80, 0xBF)]
    else if b = 0xE0 then validUtf8Go rest [(0xA0, 0xBF), (0x80, 0xBF)]
    else if 0xE1 ≤ b ∧ b ≤ 0xEC then validUtf8Go rest [(0x80, 0xBF), (0x80, 0xBF)]
    else if b = 0xED then validUtf8Go rest [(0x80, 0x9F), (0x80, 0xBF)]
    else if 0xEE ≤ b ∧ b ≤ 0xEF then validUtf8Go rest [(0x80, 0xBF), (0x80, 0xBF)]
    else if b = 0xF0 then validUtf8Go rest [(0x90, 0xBF), (0x80, 0xBF), (0x80, 0xBF)]
    else if 0xF1 ≤ b ∧ b ≤ 0xF3 then
      validUtf8Go rest [(0x80, 0xBF), (0x80, 0xBF), (0x80, 0xBF)]
    else if b = 0xF4 then validUtf8Go rest [(0x80, 0x8F), (0x80, 0xBF), (0x80, 0xBF)]
    else false
  | b :: rest, (lo, hi) :: expectRest =>
    if lo ≤ b ∧ b ≤ hi then validUtf8Go rest expectRest else false

/-- UTF-8 validity of a byte list, as checked by Rust's
`str::from_utf8` / `String::from_utf8`. -/
def validUtf8 (l : List Nat) : Bool :=
  validUtf8Go l []

/-- ASCII lowercase of one byte (the fragment of Rust's Unicode
`str::to_lowercase` relevant to the ASCII header names this file reasons
about). -/
def lowerByte (b : Nat) : Nat :=
  if 65 ≤ b ∧ b ≤ 90 then b + 32 else b

/-- Bytewise lowercase (ASCII fragment of `str::to_lowercase`). -/
def lowerBytes (l : List Nat) : List Nat :=
  l.map lowerByte

/-- Whitespace test for a byte: ASCII fragment of Rust's
`char::is_whitespace` used by `str::trim`. -/
def isWsByte (b : Nat) : Bool :=
  b = 32 || b = 9 || b = 10 || b = 11 || b = 12 || b = 13

/-- Embedding of `str::trim` (ASCII fragment): strip leading and trailing
whitespace. -/
def trimBytes (l : List Nat) : List Nat :=
  ((l.dropWhile isWsByte).reverse.dropWhile isWsByte).reverse

/-- Decimal digit accumulator for `parse::<i32>`: consumes the remaining
bytes, failing on any non-digit. -/
def digitsValGo (acc : Nat) : List Nat → Option Nat
  | [] => some acc
  | d :: t => if 48 ≤ d ∧ d ≤ 57 then digitsValGo (acc * 10 + (d - 48)) t else none

/-- Value of a nonempty all-digit byte string (`none` on empty input or any
non-digit byte). -/
def parseDigits : List Nat → Option Nat
  | [] => none
  | l => digitsValGo 0 l

/-- Embedding of Rust `str::parse::<i32>`: optional single sign, then one
or more decimal digits, result within `[-2^31, 2^31)`; anything else is a
parse error (`none`). -/
def parseI32 (s : List Nat) : Option Int :=
  match s with
  | [] => none
  | c :: rest =>
    if c = 43 then
      (parseDigits rest).bind fun v =>
        if v ≤ 2147483647 then some (Int.ofNat v) else none
    else if c = 45 then
      (parseDigits rest).bind fun v =>
        if v ≤ 2147483648 then some (-(Int.ofNat v)) else none
    else
      (parseDigits s).bind fun v =>
        if v ≤ 2147483647 then some (Int.ofNat v) else none

/-- Decimal digits of a natural number, most significant first, as bytes;
fuelled structural recursion (the fuel `n` given by `natToBytes` always
suffices because `n / 10 < n` for `n ≥ 10`). -/
def natDigitsGo : Nat → Nat → List Nat → List Nat
  | 0, n, acc => (48 + n % 10) :: acc
  | fuel + 1, n, acc =>
    if n < 10 then (48 + n) :: acc
    else natDigitsGo fuel (n / 10) ((48 + n % 10) :: acc)

/-- Decimal byte string of a natural number (`i32::to_string` for
nonnegative values). -/
def natToBytes (n : Nat) : List Nat :=
  natDigitsGo n n []

/-- Fuelled worker for `splitSeq`; the fuel `s.length + 1` given by
`splitSeq` always suffices because every recursive step consumes at least
the (nonempty) separator. -/
def splitSeqFuel : Nat → List Nat → List Nat → List (List Nat)
  | 0, s, _ => [s]
  | fuel + 1, s, sep =>
    match find s sep with
    | none => [s]
    | some i => s.take i :: splitSeqFuel fuel (s.drop (i + sep.length)) sep

/-- Leftmost-first split of a byte string on a separator sequence:
embedding of Rust `str::split(sep)` for a nonempty ASCII `sep`
(on valid UTF-8 input, byte positions of ASCII separators coincide with
char positions). -/
def splitSeq (s sep : List Nat) : List (List Nat) :=
  splitSeqFuel (s.length + 1) s sep

/-- Embedding of `headers.rs::Headers`: the distinguished `content_length`
field is an `i32` (`Int` constrained by the parser to the i32 range) and
`map` is the `HashMap<String, String>` embedded as an insertion-ordered
association list of byte strings (`HashMap::insert` replaces an existing
key). -/
structure Headers where
  contentLength : Int
  map : List (List Nat × List Nat)
deriving DecidableEq, Repr

/-- Default `Headers` (`Headers::default()`): zero content length, empty map. -/
def Headers.default : Headers := ⟨0, []⟩

/-- `HashMap::insert` on the association-list embedding: replace the value
when the key is present, append otherwise. -/
def mapInsertKV (m : List (List Nat × List Nat)) (k v : List Nat) :
    List (List Nat × List Nat) :=
  if m.any (fun p => p.1 = k) then
    m.map (fun p => if p.1 = k then (k, v) else p)
  else
    m ++ [(k, v)]

/-- The two-byte separator `": "` (colon, space). -/
def colonSpSep : List Nat := [58, 32]

/-- The bytes of the lowercase name `content-length`. -/
def contentLengthLowerBytes : List Nat :=
  [99, 111, 110, 116, 101, 110, 116, 45, 108, 101, 110, 103, 116, 104]

/-- The bytes of the header name `Content-Length` as serialized. -/
def contentLengthKeyBytes : List Nat :=
  [67, 111, 110, 116, 101, 110, 116, 45, 76, 101, 110, 103, 116, 104]

/-- Embedding of `Headers::parse_header_line` (headers.rs lines 100-124):
check UTF-8, split on `": "`, require exactly two pieces; a
`content-length` name (case-insensitive) parses its value with
`str::parse::<i32>` and records it; every other name is stored verbatim in
the map. -/
def Headers.parseHeaderLine (h : Headers) (headerLine : List Nat) :
    Except HttpError Headers :=
  if validUtf8 headerLine then
    match splitSeq headerLine colonSpSep with
    | [name, value] =>
      if lowerBytes name = contentLengthLowerBytes then
        match parseI32 (trimBytes value) with
        | some contentLength => .ok { h with contentLength := contentLength }
        | none => .error .invalidHeader
      else
        .ok { h with map := mapInsertKV h.map name value }
    | _ => .error .invalidHeader
  else
    .error .invalidHeader

/-- Worker for `Headers::try_from`: fold `parse_header_line` over the
header lines, stopping at the first empty line; `Ok` and
`Err(UnsupportedHeader)` continue, any other error aborts. -/
def headersFromLines (h : Headers) : List (List Nat) → Except HttpError Headers
  | [] => .ok h
  | line :: rest =>
    if line.isEmpty then .ok h
    else
      match h.parseHeaderLine line with
      | .ok h' => headersFromLines h' rest
      | .error .unsupportedHeader => headersFromLines h rest
      | .error e => .error e

/-- Embedding of `Headers::try_from` (headers.rs lines 160-178): check
UTF-8 of the whole block, split on CRLF, and fold `parse_header_line`
until the empty line. -/
def Headers.tryFrom (bytes : List Nat) : Except HttpError Headers :=
  if validUtf8 bytes then
    headersFromLines Headers.default (splitSeq bytes [CR, LF])
  else
    .error .invalidRequest

/-- Byte string of the token GET. -/
def getBytes : List Nat := [71, 69, 84]

/-- Byte string of the token PUT. -/
def putBytes : List Nat := [80, 85, 84]

/-- Byte string of the token PATCH. -/
def patchBytes : List Nat := [80, 65, 84, 67, 72]

/-- Byte string of the token HTTP/1.0. -/
def http10Bytes : List Nat := [72, 84, 84, 80, 47, 49, 46, 48]

/-- Byte string of the token HTTP/1.1. -/
def http11Bytes : List Nat := [72, 84, 84, 80, 47, 49, 46, 49]

/-- Supported HTTP methods (`common/mod.rs::Method`). -/
inductive Method where
  | get
  | put
  | patch
deriving DecidableEq, Repr

/-- `Method::raw`. -/
def Method.raw : Method → List Nat
  | .get => getBytes
  | .put => putBytes
  | .patch => patchBytes

/-- `Method::try_from`: exact byte-for-byte match. -/
def Method.tryFrom (bytes : List Nat) : Except HttpError Method :=
  if bytes = getBytes then .ok .get
  else if bytes = putBytes then .ok .put
  else if bytes = patchBytes then .ok .patch
  else .error .invalidHttpMethod

/-- Supported HTTP versions (`common/mod.rs::Version`). -/
inductive Version where
  | http10
  | http11
deriving DecidableEq, Repr

/-- `Version::raw`. -/
def Version.raw : Version → List Nat
  | .http10 => http10Bytes
  | .http11 => http11Bytes

/-- `Version::try_from`: exact byte-for-byte match. -/
def Version.tryFrom (bytes : List Nat) : Except HttpError Version :=
  if bytes = http10Bytes then .ok .http10
  else if bytes = http11Bytes then .ok .http11
  else .error .invalidHttpVersion

/-- Supported status codes (`response.rs::StatusCode`). -/
inductive StatusCode where
  | continue100
  | ok200
  | noContent204
  | badRequest400
  | notFound404
  | internalServerError500
  | notImplemented501
deriving DecidableEq, Repr

/-- `StatusCode::raw`: the fixed three-digit serialization. -/
def StatusCode.raw : StatusCode → List Nat
  | .continue100 => [49, 48, 48]
  | .ok200 => [50, 48, 48]
  | .noContent204 => [50, 48, 52]
  | .badRequest400 => [52, 48, 48]
  | .notFound404 => [52, 48, 52]
  | .internalServerError500 => [53, 48, 48]
  | .notImplemented501 => [53, 48, 49]

/-- `StatusCode::try_from`: exact byte-for-byte match. -/
def StatusCode.tryFrom (bytes : List Nat) : Except HttpError StatusCode :=
  if bytes = [49, 48, 48] then .ok .continue100
  else if bytes = [50, 48, 48] then .ok .ok200
  else if bytes = [50, 48, 52] then .ok .noContent204
  else if bytes = [52, 48, 48] then .ok .badRequest400
  else if bytes = [52, 48, 52] then .ok .notFound404
  else if bytes = [53, 48, 48] then .ok .internalServerError500
  else if bytes = [53, 48, 49] then .ok .notImplemented501
  else .error .invalidStatusCode

/-- Embedding of `request.rs::Uri`: a single stored string (bytes). -/
structure Uri where
  path : List Nat
deriving DecidableEq, Repr

/-- `Uri::try_from`: nonempty and valid UTF-8, stored verbatim. -/
def Uri.tryFrom (bytes : List Nat) : Except HttpError Uri :=
  if bytes.isEmpty then .error .invalidUri
  else if validUtf8 bytes then .ok ⟨bytes⟩
  else .error .invalidUri

/-- The bytes of the scheme prefix `http://`. -/
def httpSchemeBytes : List Nat := [104, 116, 116, 112, 58, 47, 47]

/-- Embedding of `Uri::get_abs_path` (request.rs lines 58-79): for a path
beginning with `http://`, the suffix from the first `/` after the scheme
(empty when the remainder is empty or has no `/`); otherwise the path
itself when it begins with `/`, else empty.  Byte positions are used just
as the source uses `bytes().position`. -/
def Uri.getAbsPath (u : Uri) : List Nat :=
  if httpSchemeBytes.isPrefixOf u.path then
    let withoutScheme := u.path.drop httpSchemeBytes.length
    if withoutScheme.isEmpty then []
    else
      match withoutScheme.findIdx? (fun byte => byte = 47) with
      | some len => withoutScheme.drop len
      | none => []
  else
    if [47].isPrefixOf u.path then u.path
    else []

/-- Transcription of the specification's description of `abs_path` ("if the
string begins with `http://`, the substring from the first `/` after the
authority, else empty; otherwise the string itself if it begins with `/`,
else empty"), used to state claim C4 as a refinement. -/
def absPathSpecced (path : List Nat) : List Nat :=
  if httpSchemeBytes.isPrefixOf path then
    match (path.drop httpSchemeBytes.length).findIdx? (fun byte => byte = 47) with
    | some i => (path.drop httpSchemeBytes.length).drop i
    | none => []
  else if [47].isPrefixOf path then path
  else []

/-- Embedding of `request.rs::RequestLine`. -/
structure RequestLine where
  method : Method
  uri : Uri
  httpVersion : Version
deriving DecidableEq, Repr

/-- `RequestLine::parse_request_line`: split on the first two SP bytes. -/
def parseRequestLine (requestLine : List Nat) :
    List Nat × List Nat × List Nat :=
  match find requestLine [SP] with
  | some methodEnd =>
    let method := requestLine.take methodEnd
    let uriAndVersion := requestLine.drop (methodEnd + 1)
    match find uriAndVersion [SP] with
    | some uriEnd =>
      (method, uriAndVersion.take uriEnd, uriAndVersion.drop (uriEnd + 1))
    | none => (method, uriAndVersion, [])
  | none => ([], [], [])

/-- `RequestLine::try_from`: parse the three parts. -/
def RequestLine.tryFrom (requestLine : List Nat) : Except HttpError RequestLine :=
  let parts := parseRequestLine requestLine
  match Method.tryFrom parts.1 with
  | .error e => .error e
  | .ok method =>
    match Uri.tryFrom parts.2.1 with
    | .error e => .error e
    | .ok uri =>
      match Version.tryFrom parts.2.2 with
      | .error e => .error e
      | .ok version => .ok ⟨method, uri, version⟩

/-- `RequestLine::min_len`: `Method::Get.raw().len() + 1 +
Version::Http10.raw().len() + 2` (= 14). -/
def RequestLine.minLen : Nat :=
  (Method.raw .get).length + 1 + (Version.raw .http10).length + 2

/-- Embedding of `common/mod.rs::Body`: an owned byte sequence. -/
structure Body where
  stream : List Nat
deriving DecidableEq, Repr

/-- Embedding of `request.rs::Request`. -/
structure Request where
  requestLine : RequestLine
  headers : Headers
  body : Option Body
deriving DecidableEq, Repr

/-- Rust `as usize` cast of an `i32` value (negative values wrap modulo
`2^64`), used by `Request::try_from` on `content_length`. -/
def i32AsUsize (i : Int) : Nat :=
  (i % (2 ^ 64 : Int)).toNat

/-- Continuation of `Request::try_from` after the request line has been
parsed successfully (request.rs lines 218-270): locate CRLFCRLF, parse the
header block, and take the body, which must be exactly `content_length`
bytes and must reach the end of the buffer. -/
def requestTryFromRest (byteStream : List Nat) (requestLineEnd : Nat)
    (requestLine : RequestLine) : Except HttpError Request :=
  match find (byteStream.drop requestLineEnd) [CR, LF, CR, LF] with
  | some 0 => .ok ⟨requestLine, Headers.default, none⟩
  | some headersEndWithCrlf =>
    let headersAndBody := byteStream.drop (requestLineEnd + CRLF_LEN)
    let headersEnd := headersEndWithCrlf - CRLF_LEN
    match Headers.tryFrom (headersAndBody.take headersEnd) with
    | .error e => .error e
    | .ok headers =>
      if headers.contentLength = 0 then
        .ok ⟨requestLine, headers, none⟩
      else
        if headersAndBody.length - (headersEnd + 2 * CRLF_LEN) <
            i32AsUsize headers.contentLength then
          .error .invalidRequest
        else
          let bodyAsBytes := headersAndBody.drop (headersEnd + 2 * CRLF_LEN)
          if bodyAsBytes.length = i32AsUsize headers.contentLength then
            .ok ⟨requestLine, headers, some ⟨bodyAsBytes⟩⟩
          else
            .error .invalidRequest
  | none => .error .invalidRequest

/-- Embedding of `Request::try_from` (request.rs lines 203-271): find the
request line's CRLF, enforce `RequestLine::min_len`, parse the request
line, and continue with `requestTryFromRest`. -/
def Request.tryFrom (byteStream : List Nat) : Except HttpError Request :=
  match find byteStream [CR, LF] with
  | none => .error .invalidRequest
  | some requestLineEnd =>
    if (byteStream.take requestLineEnd).length < RequestLine.minLen then
      .error .invalidRequest
    else
      match RequestLine.tryFrom (byteStream.take requestLineEnd) with
      | .error e => .error e
      | .ok requestLine => requestTryFromRest byteStream requestLineEnd requestLine

/-- Rust `as i32` cast of a `usize` (`body.len() as i32`): two's-complement
wrap of the low 32 bits. -/
def usizeAsI32 (n : Nat) : Int :=
  let m : Nat := n % 2 ^ 32
  if m < 2 ^ 31 then (m : Int) else (m : Int) - 2 ^ 32

/-- Decimal serialization of an `i32` (`i32::to_string`). -/
def i32ToBytes (i : Int) : List Nat :=
  if i < 0 then 45 :: natToBytes (-i).toNat else natToBytes i.toNat

/-- `Headers::write_all` (headers.rs lines 180-195): the map entries as
`name ++ ": " ++ value ++ CRLF` in order, then `Content-Length` when it is
positive, then the terminating CRLF. -/
def Headers.writeAll (h : Headers) : List Nat :=
  (h.map.flatMap fun p => p.1 ++ colonSpSep ++ p.2 ++ [CR, LF]) ++
    (if h.contentLength > 0 then
      contentLengthKeyBytes ++ colonSpSep ++ i32ToBytes h.contentLength ++ [CR, LF]
    else []) ++ [CR, LF]

/-- `Headers::set_content_length`: plain field update (the setter is called
from `response.rs` but its definition is absent from `headers.rs`; its
meaning is the obvious one). -/
def Headers.setContentLength (h : Headers) (i : Int) : Headers :=
  { h with contentLength := i }

/-- Embedding of `response.rs::Response` together with its `StatusLine`
(version, status code, optional status message). -/
structure Response where
  httpVersion : Version
  statusCode : StatusCode
  statusMessage : Option (List Nat)
  headers : Headers
  body : Option Body
deriving DecidableEq, Repr

/-- `Response::new`: empty body, default headers, no status message. -/
def Response.new (v : Version) (sc : StatusCode) : Response :=
  ⟨v, sc, none, Headers.default, none⟩

/-- `Message::with_body` for `Response` (response.rs lines 187-191): set
`content_length` to the body length and store the body. -/
def Response.withBody (r : Response) (bytes : List Nat) : Response :=
  { r with headers := r.headers.setContentLength (usizeAsI32 bytes.length),
           body := some ⟨bytes⟩ }

/-- `StatusLine::write_all` (response.rs lines 81-92). -/
def statusLineWriteAll (v : Version) (sc : StatusCode)
    (msg : Option (List Nat)) : List Nat :=
  v.raw ++ [SP] ++ sc.raw ++
    (match msg with
     | some text => [SP] ++ text
     | none => []) ++ [CR, LF]

/-- Embedding of `Message::send` for `Response` (response.rs lines
147-164): first force `content_length` to the body length (0 when there is
no body), then write status line, headers and body.  The returned list is
the byte sequence written to the stream. -/
def Response.send (r : Response) : List Nat :=
  let contentLength : Int :=
    match r.body with
    | some b => usizeAsI32 b.stream.length
    | none => 0
  let headers := r.headers.setContentLength contentLength
  statusLineWriteAll r.httpVersion r.statusCode r.statusMessage ++
    headers.writeAll ++
    (match r.body with
     | some b => b.stream
     | none => [])

/-- `StatusLine::parse_status_line` (response.rs lines 94-112). -/
def parseStatusLine (statusLine : List Nat) :
    List Nat × List Nat × List Nat :=
  match find statusLine [SP] with
  | some versionEnd =>
    let version := statusLine.take versionEnd
    let codeAndMessage := statusLine.drop (versionEnd + 1)
    match find codeAndMessage [SP] with
    | some codeEnd =>
      (version, codeAndMessage.take codeEnd, codeAndMessage.drop (codeEnd + 1))
    | none => (version, codeAndMessage, [])
  | none => ([], [], [])

/-- `StatusLine::try_from` (response.rs lines 114-131), producing the
status-line triple of a `Response`. -/
def statusLineTryFrom (statusLine : List Nat) :
    Except HttpError (Version × StatusCode × Option (List Nat)) :=
  let parts := parseStatusLine statusLine
  let message : Except HttpError (Option (List Nat)) :=
    if parts.2.2 = [] then .ok none
    else if validUtf8 parts.2.2 then .ok (some parts.2.2) else .error .invalidResponse
  match message with
  | .error e => .error e
  | .ok msg =>
    match Version.tryFrom parts.1 with
    | .error _ => .error .invalidResponse
    | .ok version =>
      match StatusCode.tryFrom parts.2.1 with
      | .error e => .error e
      | .ok code => .ok (version, code, msg)

/-- Embedding of `Response::receive` (response.rs lines 219-270).  The
`input` list models the readable stream; the single `input.read(&mut buf)`
call fills a 1024-byte zero-initialized buffer with the first
`min(1024, input.length)` bytes.  `read_exact` into `body[buffered..]` in
the source targets a slice that is always empty (the vector's length equals
the buffered byte count), so it reads nothing; the embedding reflects
that. -/
def receiveParsed (buf : List Nat) (statusEnd headersEnd : Nat)
    (headersAndBody : List Nat) : Except HttpError Response :=
  match statusLineTryFrom (buf.take statusEnd) with
  | .error e => .error e
  | .ok statusLine =>
    match Headers.tryFrom (headersAndBody.take headersEnd) with
    | .error e => .error e
    | .ok headers =>
      if headers.contentLength ≠ 0 then
        let bodyBytes := headersAndBody.drop (headersEnd + 2 * CRLF_LEN)
        let response : Response :=
          ⟨statusLine.1, statusLine.2.1, statusLine.2.2, headers, none⟩
        .ok (response.withBody bodyBytes)
      else
        .ok ⟨statusLine.1, statusLine.2.1, statusLine.2.2, headers, none⟩

/-- Embedding of `Response::receive` (body, continued from `receiveParsed`). -/
def Response.receive (input : List Nat) : Except HttpError Response :=
  let n := min 1024 input.length
  let buf := input.take 1024 ++ List.replicate (1024 - input.length) 0
  if n = 0 then .error .invalidResponse
  else
    match find buf [CR, LF] with
    | some statusEnd =>
      let headersAndBody := (buf.take n).drop (statusEnd + CRLF_LEN)
      match find headersAndBody [CR, LF, CR, LF] with
      | some headersEnd => receiveParsed buf statusEnd headersEnd headersAndBody
      | none => .error .invalidResponse
    | none => .error .invalidResponse

deriving instance DecidableEq for Except

/-- `server.rs::ClientConnectionState`. -/
inductive ClientConnectionState where
  | awaitingIncoming
  | awaitingOutgoing
  | closed
deriving DecidableEq, Repr

/-- u32 modulus. -/
def u32Mod : Nat := 2 ^ 32

/-- Wrapping u32 addition (`u32 +=` in release semantics). -/
def u32Add (a b : Nat) : Nat := (a + b) % u32Mod

/-- Wrapping u32 decrement (`u32 -= 1` in release semantics; at 0 this is
the underflow to `u32::MAX`). -/
def u32Sub1 (a : Nat) : Nat := (a + (u32Mod - 1)) % u32Mod

/-- Embedding of `server.rs::ClientConnection`.  The wrapped
`HttpConnection` (whose module `connection.rs` is not part of the sources)
is abstracted to the one observable `server.rs` consults: its
`pending_write()` flag.  `inFlight` is the `u32`
`in_flight_response_count`. -/
structure ClientConnection where
  state : ClientConnectionState
  pendingWrite : Bool
  inFlight : Nat
deriving DecidableEq, Repr

/-- `ClientConnection::new`: fresh connection, `AwaitingIncoming`, zero
in-flight count; a fresh `HttpConnection` has nothing to write. -/
def ClientConnection.new : ClientConnection :=
  ⟨.awaitingIncoming, false, 0⟩

/-- Embedding of `ClientConnection::enqueue_response` (server.rs lines
180-185): forward to the inner connection only when the state is not
`Closed` (Modelled from the spec: `HttpConnection::enqueue_response`
appends a serialized blob to the write FIFO, making `pending_write()`
true; `connection.rs` is absent from the sources), then decrement the
in-flight counter unconditionally. -/
def ClientConnection.enqueueResponse (c : ClientConnection) : ClientConnection :=
  { state := c.state
    pendingWrite := if c.state ≠ .closed then true else c.pendingWrite
    inFlight := u32Sub1 c.inFlight }

/-- `ClientConnection::is_done` (server.rs lines 188-192): closed, nothing
pending to write, and no in-flight responses. -/
def ClientConnection.isDone (c : ClientConnection) : Bool :=
  c.state = .closed && !c.pendingWrite && c.inFlight = 0

/-- Outcome of the inner `HttpConnection::try_read` call, which performs
the stream IO and incremental parsing (Modelled from the spec:
`connection.rs` is absent from the sources, so the IO result is an oracle
value carried by the event).  In the `ok` case `n` is the number of
requests popped from the parsed queue and `pendingAfter` the value of
`pending_write()` after the read (true when `Expect: 100-continue`
handling pushed a `100 Continue` response). -/
inductive ReadOutcome where
  | connectionClosed
  | streamError
  | parseError
  | ok (n : Nat) (pendingAfter : Bool)
deriving DecidableEq, Repr

/-- Embedding of `ClientConnection::read` (server.rs lines 104-156):
`ConnectionClosed` marks the state `Closed` and returns early (skipping
the in-flight and state updates); `StreamError`/`ParseError` enqueue an
error response (making `pending_write()` true); success adds the popped
requests to the in-flight count.  Afterwards (except on the early return)
a pending write flips the state to `AwaitingOutgoing`.  The returned `Nat`
is the number of requests handed to the server. -/
def ClientConnection.read (c : ClientConnection) (o : ReadOutcome) :
    ClientConnection × Nat :=
  match o with
  | .connectionClosed => ({ c with state := .closed }, 0)
  | .streamError =>
    ({ state := .awaitingOutgoing, pendingWrite := true,
       inFlight := u32Add c.inFlight 0 }, 0)
  | .parseError =>
    ({ state := .awaitingOutgoing, pendingWrite := true,
       inFlight := u32Add c.inFlight 0 }, 0)
  | .ok n pendingAfter =>
    let c1 : ClientConnection :=
      { c with pendingWrite := pendingAfter, inFlight := u32Add c.inFlight n }
    (if pendingAfter then { c1 with state := .awaitingOutgoing } else c1, n)

/-- Outcome of the inner `HttpConnection::try_write` call (Modelled from
the spec, `connection.rs` being absent): an IO failure, an
`InvalidWrite` (nothing to write), or success with the value of
`pending_write()` after the write. -/
inductive WriteOutcome where
  | closedOrError
  | invalidWrite
  | ok (pendingAfter : Bool)
deriving DecidableEq, Repr

/-- Embedding of `ClientConnection::write` (server.rs lines 158-178):
`ConnectionClosed`/`StreamError` mark the connection `Closed`;
`InvalidWrite` is propagated as a `ServerError`; on success a drained
backlog flips the state to `AwaitingIncoming`. -/
def ClientConnection.write (c : ClientConnection) (o : WriteOutcome) :
    Except Unit ClientConnection :=
  match o with
  | .closedOrError => .ok { c with state := .closed }
  | .invalidWrite => .error ()
  | .ok pendingAfter =>
    let c1 : ClientConnection := { c with pendingWrite := pendingAfter }
    .ok (if !pendingAfter then { c1 with state := .awaitingIncoming } else c1)

/-- `server.rs::MAX_CONNECTIONS`. -/
def maxConnections : Nat := 10

/-- `server.rs::SERVER_FULL_ERROR_MESSAGE`, byte for byte. -/
def serverFullErrorMessage : List Nat :=
  strBytes serverFullStr
where
  serverFullStr : String :=
    "HTTP/1.1 503\r\nServer: Firecracker API\r\nConnection: close\r\nContent-Length: 40\r\n\r\n\x7b \"error\": \"Too many open connections\" \x7d"

/-- Association-list lookup (`HashMap::get` / `get_mut` on the fd key). -/
def connLookup (m : List (Nat × ClientConnection)) (fd : Nat) :
    Option ClientConnection :=
  match m with
  | [] => none
  | p :: t => if p.1 = fd then some p.2 else connLookup t fd

/-- Association-list value update at a present key (used for `get_mut`
mutations: the key set is unchanged). -/
def connUpdate (m : List (Nat × ClientConnection)) (fd : Nat)
    (c : ClientConnection) : List (Nat × ClientConnection) :=
  m.map fun p => if p.1 = fd then (fd, c) else p

/-- `HashMap::insert`: replace the value when the key is present, append
otherwise. -/
def connInsert (m : List (Nat × ClientConnection)) (fd : Nat)
    (c : ClientConnection) : List (Nat × ClientConnection) :=
  if (connLookup m fd).isSome then connUpdate m fd c else m ++ [(fd, c)]

/-- Embedding of `server.rs::HttpServer`: the listener's fd and the
connections map (an insertion-ordered association list standing for the
`HashMap<RawFd, ClientConnection>`; the epoll handle carries no
server-visible state beyond the interests it is told, so it is not
modelled). -/
structure ServerState where
  listenerFd : Nat
  conns : List (Nat × ClientConnection)
deriving DecidableEq, Repr

/-- One `epoll` event as consumed by `HttpServer::requests`: the fd it
fired on, the event-set test (`EPOLLIN` / `EPOLLOUT` / neither) together
with the IO oracle of the corresponding connection call, and — when the fd
is the listener's — the fd of the stream that `accept()` yields. -/
inductive EventKind where
  | canRead (o : ReadOutcome)
  | canWrite (o : WriteOutcome)
  | neither
deriving DecidableEq, Repr

/-- An epoll event (fd, event set with its IO oracle, accept oracle). -/
structure Event where
  fd : Nat
  kind : EventKind
  acceptFd : Nat
deriving DecidableEq, Repr

/-- Result of processing events inside `HttpServer::requests`: `panic`
models the `unwrap()` on a failed connections-map lookup, `fail` an early
`return Err(ServerError)`, and `ok` carries the new state, the total
number of requests yielded, and the `(fd, bytes)` writes made to rejected
(server-full) streams. -/
inductive StepOut where
  | panic
  | fail
  | ok (s : ServerState) (yielded : Nat) (rejected : List (Nat × List Nat))
deriving DecidableEq, Repr

/-- Embedding of `HttpServer::handle_new_connection` (server.rs lines
411-438) combined with its caller's `ServerFull` arm (lines 314-331): at
capacity the accepted stream is written `SERVER_FULL_ERROR_MESSAGE` and
dropped; otherwise the stream is registered and inserted.  `accept` and
the epoll registrations are modelled as succeeding. -/
def handleAccept (s : ServerState) (newFd : Nat) : ServerState × List (Nat × List Nat) :=
  if s.conns.length = maxConnections then
    (s, [(newFd, serverFullErrorMessage)])
  else
    ({ s with conns := connInsert s.conns newFd ClientConnection.new }, [])

/-- Embedding of the per-event dispatch inside `HttpServer::requests`
(server.rs lines 307-364): an event on the listener fd accepts; any other
event looks the fd up in the connections map and `unwrap()`s (panicking on
a miss), then reads on `EPOLLIN`, writes on `EPOLLOUT` (propagating
`ServerError` from `write`), and does nothing when neither bit is set. -/
def processEvent (s : ServerState) (e : Event) : StepOut :=
  if e.fd = s.listenerFd then
    let r := handleAccept s e.acceptFd
    .ok r.1 0 r.2
  else
    match connLookup s.conns e.fd with
    | none => .panic
    | some c =>
      match e.kind with
      | .canRead o =>
        let r := c.read o
        .ok { s with conns := connUpdate s.conns e.fd r.1 } r.2 []
      | .canWrite o =>
        match c.write o with
        | .error _ => .fail
        | .ok c' => .ok { s with conns := connUpdate s.conns e.fd c' } 0 []
      | .neither => .ok s 0 []

/-- Fold of `processEvent` over the event list delivered by one
`epoll_wait`, accumulating yielded requests and rejected-stream writes. -/
def processEvents (s : ServerState) : List Event → Nat → List (Nat × List Nat) → StepOut
  | [], yielded, rejected => .ok s yielded rejected
  | e :: rest, yielded, rejected =>
    match processEvent s e with
    | .panic => .panic
    | .fail => .fail
    | .ok s' y r => processEvents s' rest (yielded + y) (rejected ++ r)

/-- The end-of-call sweep of `HttpServer::requests` (server.rs lines
366-368): `retain(|_, c| !c.is_done())`. -/
def sweepConns (m : List (Nat × ClientConnection)) : List (Nat × ClientConnection) :=
  m.filter fun p => !p.2.isDone

/-- Embedding of `HttpServer::requests` (server.rs lines 291-371) for one
delivered event batch: process every event, then remove the connections
whose `is_done()` holds. -/
def requestsStep (s : ServerState) (events : List Event) : StepOut :=
  match processEvents s events 0 [] with
  | .ok s' yielded rejected =>
    .ok { s' with conns := sweepConns s'.conns } yielded rejected
  | r => r

/-- Embedding of `HttpServer::respond` (server.rs lines 393-404): look up
the connection by id (a miss drops the response silently); flip an
`AwaitingIncoming` connection to `AwaitingOutgoing`; enqueue the
response. -/
def respondStep (s : ServerState) (id : Nat) : ServerState :=
  match connLookup s.conns id with
  | none => s
  | some c =>
    let c1 : ClientConnection :=
      if c.state = .awaitingIncoming then { c with state := .awaitingOutgoing } else c
    { s with conns := connUpdate s.conns id c1.enqueueResponse }

/-- States of the server reachable from a freshly constructed one by
`requests()` and `respond()` calls (claim C3 quantifies over these). -/
inductive Reachable : ServerState → Prop
  | init (lfd : Nat) : Reachable ⟨lfd, []⟩
  | requests {s : ServerState} (events : List Event) {s' : ServerState}
      {yielded : Nat} {rejected : List (Nat × List Nat)} :
      Reachable s → requestsStep s events = .ok s' yielded rejected → Reachable s'
  | respond {s : ServerState} (id : Nat) :
      Reachable s → Reachable (respondStep s id)

/-! ### Generic lemmas about `find`, `splitSeq` and the byte-string helpers -/

theorem findFrom_shift (bytes seq : List Nat) (i : Nat) :
    findFrom bytes seq i = (findFrom bytes seq 0).map (fun n => n + i) := by
  induction bytes generalizing i with
  | nil => simp [findFrom]
  | cons b t ih =>
    simp only [findFrom]
    by_cases h : seq.isPrefixOf (b :: t)
    · simp [h]
    · simp only [h, if_false]
      rw [ih (i + 1), ih 1]
      cases findFrom t seq 0 <;> simp [Nat.add_comm, Nat.add_assoc, Nat.add_left_comm]

theorem isPrefixOf_append_self (l r : List Nat) : l.isPrefixOf (l ++ r) = true := by
  induction l with
  | nil => simp [List.isPrefixOf]
  | cons a t ih => simp [List.isPrefixOf, ih]

theorem find_of_prefix {bytes seq : List Nat} (hne : bytes ≠ [])
    (h : seq.isPrefixOf bytes = true) : find bytes seq = some 0 := by
  cases bytes with
  | nil => exact absurd rfl hne
  | cons b t => simp [find, findFrom, h]

theorem find_append_no_head {xs : List Nat} {c : Nat} (seqTail rest : List Nat)
    (hxs : ∀ b ∈ xs, b ≠ c) :
    find (xs ++ rest) (c :: seqTail) =
      (find rest (c :: seqTail)).map (fun n => n + xs.length) := by
  induction xs with
  | nil =>
    simp only [List.nil_append, List.length_nil]
    cases find rest (c :: seqTail) <;> simp
  | cons b t ih =>
    have hb : b ≠ c := hxs b (by simp)
    have hbeq : (c == b) = false := by
      simp only [beq_eq_false_iff_ne, Ne]
      exact fun h => hb h.symm
    have hnp : (c :: seqTail).isPrefixOf (b :: (t ++ rest)) = false := by
      simp [List.isPrefixOf, hbeq]
    have ht : ∀ x ∈ t, x ≠ c := fun x hx => hxs x (by simp [hx])
    have step1 : find ((b :: t) ++ rest) (c :: seqTail) =
        findFrom (t ++ rest) (c :: seqTail) 1 := by
      simp [find, findFrom, hnp]
    have step2 : findFrom (t ++ rest) (c :: seqTail) 1 =
        (find (t ++ rest) (c :: seqTail)).map (fun n => n + 1) :=
      findFrom_shift _ _ 1
    rw [step1, step2, ih ht]
    cases find rest (c :: seqTail) <;>
      simp [Nat.add_comm, Nat.add_assoc, Nat.add_left_comm]

theorem find_eq_none_no_head {xs : List Nat} {c : Nat} (seqTail : List Nat)
    (hxs : ∀ b ∈ xs, b ≠ c) : find xs (c :: seqTail) = none := by
  have := find_append_no_head (c := c) seqTail [] hxs
  simpa [find, findFrom] using this

theorem find_marker {xs : List Nat} {c : Nat} (seqTail rest : List Nat)
    (hxs : ∀ b ∈ xs, b ≠ c) :
    find (xs ++ (c :: seqTail) ++ rest) (c :: seqTail) = some xs.length := by
  rw [List.append_assoc, find_append_no_head seqTail ((c :: seqTail) ++ rest) hxs,
    find_of_prefix (by simp) (isPrefixOf_append_self _ _)]
  simp

theorem splitSeqFuel_of_find_none {s sep : List Nat} (fuel : Nat)
    (h : find s sep = none) : splitSeqFuel fuel s sep = [s] := by
  cases fuel <;> simp [splitSeqFuel, h]

theorem splitSeq_of_find_none {s sep : List Nat} (h : find s sep = none) :
    splitSeq s sep = [s] := splitSeqFuel_of_find_none _ h

theorem splitSeq_pair {s sep : List Nat} {i : Nat} (h : find s sep = some i)
    (h2 : find (s.drop (i + sep.length)) sep = none) :
    splitSeq s sep = [s.take i, s.drop (i + sep.length)] := by
  simp only [splitSeq, splitSeqFuel, h]
  rw [splitSeqFuel_of_find_none _ h2]

theorem validUtf8_cons_of_lt {b : Nat} {l : List Nat} (hb : b < 128) :
    validUtf8 (b :: l) = validUtf8 l := by
  show validUtf8Go (b :: l) [] = validUtf8Go l []
  simp only [validUtf8Go, if_pos (show b < 0x80 by omega)]

theorem validUtf8_ascii_append {xs : List Nat} (v : List Nat)
    (h : ∀ b ∈ xs, b < 128) : validUtf8 (xs ++ v) = validUtf8 v := by
  induction xs with
  | nil => simp
  | cons b t ih =>
    have hb : b < 128 := h b (by simp)
    have ht : ∀ x ∈ t, x < 128 := fun x hx => h x (by simp [hx])
    rw [List.cons_append, validUtf8_cons_of_lt hb, ih ht]

theorem dropWhile_eq_self_of_none {p : Nat → Bool} {l : List Nat}
    (h : ∀ b ∈ l, p b = false) : l.dropWhile p = l := by
  cases l with
  | nil => rfl
  | cons b t => simp [List.dropWhile, h b (by simp)]

theorem trimBytes_eq_self {l : List Nat} (h : ∀ b ∈ l, isWsByte b = false) :
    trimBytes l = l := by
  unfold trimBytes
  rw [dropWhile_eq_self_of_none h,
    dropWhile_eq_self_of_none (fun b hb => h b (List.mem_reverse.mp hb)),
    List.reverse_reverse]

theorem natDigitsGo_acc (fuel : Nat) : ∀ n acc,
    natDigitsGo fuel n acc = natDigitsGo fuel n [] ++ acc := by
  induction fuel with
  | zero => intro n acc; simp [natDigitsGo]
  | succ f ih =>
    intro n acc
    by_cases h : n < 10
    · simp [natDigitsGo, h]
    · simp only [natDigitsGo, h, if_false]
      rw [ih (n / 10) ((48 + n % 10) :: acc), ih (n / 10) [48 + n % 10]]
      simp

theorem natDigitsGo_eq_natToBytes : ∀ fuel n, n ≤ fuel →
    natDigitsGo fuel n [] = natToBytes n := by
  intro fuel
  induction fuel using Nat.strong_induction_on with
  | _ fuel ih =>
    intro n hn
    match fuel with
    | 0 =>
      have : n = 0 := Nat.le_zero.mp hn
      subst this; rfl
    | f + 1 =>
      by_cases h : n < 10
      · have h1 : natDigitsGo (f + 1) n [] = (48 + n) :: [] := by
          simp [natDigitsGo, h]
        rw [h1]
        match n, h with
        | 0, _ => rfl
        | m + 1, h => simp [natToBytes, natDigitsGo, h]
      · have hd : n / 10 ≤ f := by
          have := Nat.div_lt_self (by omega : 0 < n) (by omega : 1 < 10)
          omega
        have h1 : natDigitsGo (f + 1) n [] =
            natDigitsGo f (n / 10) [48 + n % 10] := by
          simp [natDigitsGo, h]
        match n, h, hn with
        | m + 1, h, hn =>
          have h2 : natToBytes (m + 1) =
              natDigitsGo m ((m + 1) / 10) [48 + (m + 1) % 10] := by
            simp [natToBytes, natDigitsGo, h]
          rw [h1, h2, natDigitsGo_acc f, natDigitsGo_acc m,
            ih f (by omega) _ hd, ih m (by omega) _ (by omega)]

theorem natToBytes_small {n : Nat} (h : n < 10) : natToBytes n = [48 + n] := by
  match n, h with
  | 0, _ => rfl
  | m + 1, h => simp [natToBytes, natDigitsGo, h]

theorem natToBytes_rec10 {n : Nat} (h : 10 ≤ n) :
    natToBytes n = natToBytes (n / 10) ++ [48 + n % 10] := by
  match n, h with
  | m + 1, h =>
    have h2 : natToBytes (m + 1) =
        natDigitsGo m ((m + 1) / 10) [48 + (m + 1) % 10] := by
      simp only [natToBytes, natDigitsGo, if_neg (by omega : ¬ m + 1 < 10)]
    rw [h2, natDigitsGo_acc m, natDigitsGo_eq_natToBytes m _ (by omega)]

theorem natToBytes_digits : ∀ n, ∀ d ∈ natToBytes n, 48 ≤ d ∧ d ≤ 57 := by
  intro n
  induction n using Nat.strong_induction_on with
  | _ n ih =>
    intro d hd
    by_cases h : n < 10
    · rw [natToBytes_small h] at hd
      simp at hd
      omega
    · rw [natToBytes_rec10 (by omega)] at hd
      rcases List.mem_append.mp hd with h1 | h1
      · exact ih (n / 10) (Nat.div_lt_self (by omega) (by omega)) d h1
      · simp at h1
        have := Nat.mod_lt n (by omega : 0 < 10)
        omega

theorem natToBytes_ne_nil (n : Nat) : natToBytes n ≠ [] := by
  by_cases h : n < 10
  · rw [natToBytes_small h]; simp
  · rw [natToBytes_rec10 (by omega)]; simp

theorem digitsValGo_append (xs : List Nat) : ∀ ys a,
    digitsValGo a (xs ++ ys) =
      match digitsValGo a xs with
      | some b => digitsValGo b ys
      | none => none := by
  induction xs with
  | nil => intro ys a; simp [digitsValGo]
  | cons d t ih =>
    intro ys a
    by_cases h : 48 ≤ d ∧ d ≤ 57
    · simp [digitsValGo, h, ih]
    · simp [digitsValGo, h]

theorem digitsValGo_natToBytes : ∀ n a,
    digitsValGo a (natToBytes n) =
      some (a * 10 ^ (natToBytes n).length + n) := by
  intro n
  induction n using Nat.strong_induction_on with
  | _ n ih =>
    intro a
    by_cases h : n < 10
    · rw [natToBytes_small h]
      simp [digitsValGo, (by omega : 48 ≤ 48 + n ∧ 48 + n ≤ 57)]
    · rw [natToBytes_rec10 (by omega), digitsValGo_append,
        ih (n / 10) (Nat.div_lt_self (by omega) (by omega)) a]
      have hm := Nat.mod_lt n (by omega : 0 < 10)
      simp only [digitsValGo, (by omega : 48 ≤ 48 + n % 10 ∧ 48 + n % 10 ≤ 57),
        and_self, if_true, List.length_append, List.length_cons,
        List.length_nil]
      have : (a * 10 ^ (natToBytes (n / 10)).length + n / 10) * 10 +
          (48 + n % 10 - 48) = a * 10 ^ ((natToBytes (n / 10)).length + 1) +
          (10 * (n / 10) + n % 10) := by ring_nf; omega
      rw [this, Nat.div_add_mod]

theorem parseI32_natToBytes {n : Nat} (h : n ≤ 2147483647) :
    parseI32 (natToBytes n) = some (Int.ofNat n) := by
  obtain ⟨d, t, hd⟩ : ∃ d t, natToBytes n = d :: t := by
    cases hnb : natToBytes n with
    | nil => exact absurd hnb (natToBytes_ne_nil n)
    | cons d t => exact ⟨d, t, rfl⟩
  have hdig : 48 ≤ d ∧ d ≤ 57 := natToBytes_digits n d (by rw [hd]; simp)
  have hval : digitsValGo 0 (natToBytes n) = some n := by
    rw [digitsValGo_natToBytes n 0]; simp
  rw [hd] at hval ⊢
  have hp : parseDigits (d :: t) = some n := by
    simpa [parseDigits] using hval
  simp only [parseI32, if_neg (by omega : ¬ d = 43),
    if_neg (by omega : ¬ d = 45), hp]
  simp [h]

theorem natToBytes_length_le : ∀ k n, 1 ≤ k → n < 10 ^ k →
    (natToBytes n).length ≤ k := by
  intro k n
  induction n using Nat.strong_induction_on generalizing k with
  | _ n ih =>
    intro hk hn
    by_cases h : n < 10
    · rw [natToBytes_small h]; simpa using hk
    · have hk2 : 2 ≤ k := by
        by_contra hcon
        have : k = 1 := by omega
        subst this
        simp at hn
        omega
      rw [natToBytes_rec10 (by omega)]
      have hih : (natToBytes (n / 10)).length ≤ k - 1 := by
        apply ih (n / 10) (Nat.div_lt_self (by omega) (by omega)) (k - 1) (by omega)
        have : 10 ^ k = 10 ^ (k - 1) * 10 := by
          conv_lhs => rw [(by omega : k = (k - 1) + 1)]
          rw [pow_succ]
        omega
      simp only [List.length_append, List.length_cons, List.length_nil]
      omega

theorem splitSeq_header_value {v : List Nat} (hv : find v colonSpSep = none) :
    splitSeq (contentLengthKeyBytes ++ colonSpSep ++ v) colonSpSep =
      [contentLengthKeyBytes, v] := by
  have hfind : find (contentLengthKeyBytes ++ colonSpSep ++ v) colonSpSep =
      some contentLengthKeyBytes.length := by
    have : colonSpSep = 58 :: [32] := rfl
    rw [this]
    exact find_marker [32] v (by decide)
  have hdrop : (contentLengthKeyBytes ++ colonSpSep ++ v).drop
      (contentLengthKeyBytes.length + colonSpSep.length) = v := by
    rw [← List.length_append, List.drop_left]
  have htake : (contentLengthKeyBytes ++ colonSpSep ++ v).take
      contentLengthKeyBytes.length = contentLengthKeyBytes := by
    rw [List.append_assoc, List.take_left]
  rw [splitSeq_pair hfind (by rw [hdrop]; exact hv), hdrop, htake]

theorem parseHeaderLine_contentLength_eq (h : Headers) (v : List Nat)
    (hutf : validUtf8 v = true) (hnc : find v colonSpSep = none) :
    Headers.parseHeaderLine h (contentLengthKeyBytes ++ colonSpSep ++ v) =
      (match parseI32 (trimBytes v) with
       | some n => .ok { h with contentLength := n }
       | none => .error .invalidHeader) := by
  have hutfLine : validUtf8 (contentLengthKeyBytes ++ colonSpSep ++ v) = true := by
    rw [List.append_assoc,
      validUtf8_ascii_append (colonSpSep ++ v) (by decide),
      validUtf8_ascii_append v (by decide), hutf]
  unfold Headers.parseHeaderLine
  rw [if_pos hutfLine, splitSeq_header_value hnc]
  simp only [if_pos (show lowerBytes contentLengthKeyBytes =
    contentLengthLowerBytes by decide)]

/-! ### Claims C1, C2, C4 -/

/-- The value bytes of a negative Content-Length test line. -/
def negOneVal : List Nat := [45, 49]

/-- The value bytes of a non-numeric Content-Length test line. -/
def alphaVal : List Nat := [97, 108, 112, 104, 97]

/-- C1 (amended): for every header line `Content-Length: <v>` (with `<v>`
valid UTF-8 and containing no `": "`), `Headers::parse_header_line`
returns `Ok` and records the value whenever `<v>` parses as a signed
32-bit decimal integer — negative values included — and returns
`Err(InvalidHeader)` exactly when the i32 parse fails.  (The claim's
assertion that negative values are rejected is false; see the
counterexample.) -/
theorem c1_content_length_parse (h : Headers) (v : List Nat)
    (hutf : validUtf8 v = true) (hnc : find v colonSpSep = none) :
    (∀ n : Int, parseI32 (trimBytes v) = some n →
      Headers.parseHeaderLine h (contentLengthKeyBytes ++ colonSpSep ++ v) =
        .ok { h with contentLength := n }) ∧
    (parseI32 (trimBytes v) = none →
      Headers.parseHeaderLine h (contentLengthKeyBytes ++ colonSpSep ++ v) =
        .error .invalidHeader) := by
  have key := parseHeaderLine_contentLength_eq h v hutf hnc
  constructor
  · intro n hn
    rw [key, hn]
  · intro hn
    rw [key, hn]

/-- C1 witness: instantiation of `c1_content_length_parse` at the concrete
values `-1` (accepted and recorded) and `alpha` (rejected). -/
theorem c1_content_length_parse_witness :
    Headers.parseHeaderLine Headers.default
        (contentLengthKeyBytes ++ colonSpSep ++ negOneVal) =
      Except.ok { Headers.default with contentLength := -1 } ∧
    Headers.parseHeaderLine Headers.default
        (contentLengthKeyBytes ++ colonSpSep ++ alphaVal) =
      Except.error .invalidHeader := by
  constructor
  · exact (c1_content_length_parse Headers.default negOneVal (by decide)
      (by decide)).1 (-1) (by decide)
  · exact (c1_content_length_parse Headers.default alphaVal (by decide)
      (by decide)).2 (by decide)

/-- C1 counterexample: the header line `Content-Length: -1` — whose value
parses as a negative signed 32-bit integer — is *not* rejected with
`InvalidHeader` as the claim states: `parse_header_line` returns `Ok` and
records `-1`. -/
theorem c1_counterexample :
    Headers.parseHeaderLine Headers.default
        (contentLengthKeyBytes ++ colonSpSep ++ negOneVal) =
      Except.ok ⟨-1, []⟩ ∧ (-1 : Int) < 0 := by
  constructor
  · decide
  · decide

/-- The header line `Transfer-Encoding: chunked`. -/
def transferEncodingLine : List Nat :=
  [84, 114, 97, 110, 115, 102, 101, 114, 45, 69, 110, 99, 111, 100, 105,
   110, 103, 58, 32, 99, 104, 117, 110, 107, 101, 100]

/-- The header name `Transfer-Encoding`. -/
def transferEncodingName : List Nat :=
  [84, 114, 97, 110, 115, 102, 101, 114, 45, 69, 110, 99, 111, 100, 105,
   110, 103]

/-- The header value `chunked`. -/
def chunkedVal : List Nat := [99, 104, 117, 110, 107, 101, 100]

/-- The header line `Expect: unsupported` (an `Expect` value other than
`100-continue`). -/
def expectLine : List Nat :=
  [69, 120, 112, 101, 99, 116, 58, 32, 117, 110, 115, 117, 112, 112, 111,
   114, 116, 101, 100]

/-- The header name `Expect`. -/
def expectName : List Nat := [69, 120, 112, 101, 99, 116]

/-- The header value `unsupported`. -/
def unsupportedVal : List Nat :=
  [117, 110, 115, 117, 112, 112, 111, 114, 116, 101, 100]

/-- C2: evaluation of the code at the claim's failing inputs.  A
`Transfer-Encoding` line (any value) and an `Expect` line with a value
other than `100-continue` are *accepted*: `parse_header_line` returns
`Ok(())` and stores the header verbatim in the map, and `Headers::try_from`
accepts a block containing them, so the enclosing request is *not*
invalidated.  This contradicts the claim (and the function's own doc
comment, which promises `InvalidHeader` for HTTP features the
implementation does not support — the `Header` enum's variants for these
names exist but are never consulted by the parsing path). -/
theorem c2_code_evaluation :
    Headers.parseHeaderLine Headers.default transferEncodingLine =
      Except.ok ⟨0, [(transferEncodingName, chunkedVal)]⟩ ∧
    Headers.parseHeaderLine Headers.default expectLine =
      Except.ok ⟨0, [(expectName, unsupportedVal)]⟩ ∧
    Headers.tryFrom transferEncodingLine =
      Except.ok ⟨0, [(transferEncodingName, chunkedVal)]⟩ := by
  refine ⟨by decide, by decide, by decide⟩

/-- C4: `Uri::get_abs_path` agrees everywhere with the specification's
description of `abs_path` (scheme-prefixed URIs yield the suffix from the
first `/` after the authority, empty when absent — in particular
`http://host` yields the empty string; other URIs yield themselves when
they start with `/`, else empty). -/
theorem c4_abs_path_matches_spec (p : List Nat) :
    Uri.getAbsPath ⟨p⟩ = absPathSpecced p := by
  unfold Uri.getAbsPath absPathSpecced
  by_cases h1 : httpSchemeBytes.isPrefixOf p
  · simp only [h1, if_true]
    cases hws : p.drop httpSchemeBytes.length with
    | nil => simp
    | cons a t => simp
  · simp only [h1]
    simp

/-- Spot check of the tie-break: the URI `http://host` (no trailing slash)
has the empty abs-path, both in the code and in the specification's
reading. -/
theorem absPath_host_tiebreak :
    Uri.getAbsPath ⟨httpSchemeBytes ++ [104, 111, 115, 116]⟩ = [] ∧
    absPathSpecced (httpSchemeBytes ++ [104, 111, 115, 116]) = [] := by
  exact ⟨by decide, by decide⟩

/-! ### Claims C9 and C10 -/

/-- C9: `ClientConnection::enqueue_response` decrements the u32
`in_flight_response_count` unconditionally — also when the state is
`Closed`, where the response itself is dropped (the connection's state and
pending-write flag are untouched) — and there is no guard: at a count of
0 the subtraction underflows to `u32::MAX` (`2^32 - 1`, the wrapping
value of `0 - 1`; a debug build would abort on the same overflow). -/
theorem c9_enqueue_response_underflow (c : ClientConnection) :
    (c.enqueueResponse.inFlight = (c.inFlight + (2 ^ 32 - 1)) % 2 ^ 32) ∧
    (c.state = .closed →
      c.enqueueResponse =
        { c with inFlight := (c.inFlight + (2 ^ 32 - 1)) % 2 ^ 32 }) ∧
    (c.inFlight = 0 → c.enqueueResponse.inFlight = 2 ^ 32 - 1) := by
  refine ⟨rfl, ?_, ?_⟩
  · intro hclosed
    simp [ClientConnection.enqueueResponse, hclosed, u32Sub1, u32Mod]
  · intro h0
    simp [ClientConnection.enqueueResponse, h0, u32Sub1, u32Mod]

/-- C9 witness: a closed connection with zero in-flight count; enqueueing
a response underflows the counter to `2^32 - 1` and leaves the rest of the
connection unchanged. -/
theorem c9_enqueue_response_underflow_witness :
    (ClientConnection.enqueueResponse ⟨.closed, false, 0⟩).inFlight =
      2 ^ 32 - 1 ∧
    ClientConnection.enqueueResponse ⟨.closed, false, 0⟩ =
      ⟨.closed, false, 2 ^ 32 - 1⟩ := by
  refine ⟨(c9_enqueue_response_underflow ⟨.closed, false, 0⟩).2.2 rfl, ?_⟩
  have h := (c9_enqueue_response_underflow ⟨.closed, false, 0⟩).2.1 rfl
  rw [h]
  decide

/-- C10: an epoll event whose fd is neither the listener's fd nor a key of
the connections map makes `HttpServer::requests` panic (the `unwrap()` on
the failed `get_mut` lookup), for every event kind — it neither skips the
event nor returns a `ServerError`. -/
theorem c10_unknown_fd_panics (s : ServerState) (e : Event)
    (hfd : e.fd ≠ s.listenerFd) (hmiss : connLookup s.conns e.fd = none) :
    processEvent s e = .panic ∧ requestsStep s [e] = .panic := by
  have h1 : processEvent s e = .panic := by
    unfold processEvent
    rw [if_neg hfd, hmiss]
  refine ⟨h1, ?_⟩
  unfold requestsStep processEvents
  rw [h1]

/-- C10 witness: a server with listener fd 0 and an empty connections map
panics on an event for fd 5. -/
theorem c10_unknown_fd_panics_witness :
    processEvent ⟨0, []⟩ ⟨5, .neither, 0⟩ = .panic ∧
    requestsStep ⟨0, []⟩ [⟨5, .neither, 0⟩] = .panic :=
  c10_unknown_fd_panics ⟨0, []⟩ ⟨5, .neither, 0⟩ (by decide) (by decide)

theorem isPrefixOf_length_le {seq l : List Nat} (h : seq.isPrefixOf l = true) :
    seq.length ≤ l.length := by
  induction seq generalizing l with
  | nil => simp
  | cons a t ih =>
    cases l with
    | nil => simp [List.isPrefixOf] at h
    | cons b r =>
      simp only [List.isPrefixOf, Bool.and_eq_true] at h
      have := ih h.2
      simp only [List.length_cons]
      omega

theorem find_some_le {bytes seq : List Nat} {i : Nat}
    (h : find bytes seq = some i) : i + seq.length ≤ bytes.length := by
  induction bytes generalizing i with
  | nil =>
    have hnone : find ([] : List Nat) seq = none := rfl
    rw [hnone] at h
    cases h
  | cons b t ih =>
    by_cases hp : seq.isPrefixOf (b :: t)
    · have : i = 0 := by
        simp [find, findFrom, hp] at h
        omega
      subst this
      simpa using isPrefixOf_length_le hp
    · have hstep : findFrom t seq 1 = some i := by
        simpa [find, findFrom, hp] using h
      rw [findFrom_shift] at hstep
      cases ht : findFrom t seq 0 with
      | none => rw [ht] at hstep; simp at hstep
      | some j =>
        rw [ht] at hstep
        simp at hstep
        have hj : find t seq = some j := ht
        have := ih hj
        simp only [List.length_cons]
        omega

/-! ### Claim C6 -/

/-- The byte stream `GET / HTTP/1.1` CRLF CRLF: a complete request whose
request line is exactly 14 bytes long. -/
def c6Input : List Nat :=
  [71, 69, 84, 32, 47, 32, 72, 84, 84, 80, 47, 49, 46, 49, 13, 10, 13, 10]

/-- C6 counterexample: the claim's threshold of
`len("GET") + 1 + 1 + len("HTTP/1.0") + 2 = 15` bytes is wrong: the
request line `GET / HTTP/1.1` is 14 bytes long — below the claim's
threshold — yet `Request::try_from` does not reject it; it parses
successfully (the code's `RequestLine::min_len()` is
`len("GET") + 1 + len("HTTP/1.0") + 2 = 14`). -/
theorem c6_counterexample :
    find c6Input [CR, LF] = some 14 ∧ 14 < 15 ∧
    Request.tryFrom c6Input =
      Except.ok ⟨⟨.get, ⟨[47]⟩, .http11⟩, Headers.default, none⟩ := by
  refine ⟨by decide, by decide, by decide⟩

/-- C6 (amended): `Request::try_from` rejects every input whose request
line (the bytes before the first CRLF) is shorter than
`len("GET") + 1 + len("HTTP/1.0") + 2 = 14` bytes (the code's
`RequestLine::min_len`, which budgets one byte for the URI and two for the
separators); request lines of at least 14 bytes pass the length check and
proceed to method/URI/version parsing. -/
theorem c6_request_line_min_len (s : List Nat) (rlEnd : Nat)
    (h : find s [CR, LF] = some rlEnd) :
    (rlEnd < 14 → Request.tryFrom s = .error .invalidRequest) ∧
    (14 ≤ rlEnd → Request.tryFrom s =
      match RequestLine.tryFrom (s.take rlEnd) with
      | .error e => .error e
      | .ok requestLine => requestTryFromRest s rlEnd requestLine) := by
  have hle : rlEnd + 2 ≤ s.length := by
    have := find_some_le h
    simpa using this
  have hlen : (s.take rlEnd).length = rlEnd := by
    simp only [List.length_take]
    omega
  have hmin : RequestLine.minLen = 14 := rfl
  constructor
  · intro hshort
    simp only [Request.tryFrom, h]
    rw [if_pos (by rw [hlen, hmin]; omega)]
  · intro hlong
    simp only [Request.tryFrom, h]
    rw [if_neg (by rw [hlen, hmin]; omega)]

/-- C6 witness: instantiation of `c6_request_line_min_len` at an input
with an 11-byte request line (rejected by the length check) and at
`c6Input` with its 14-byte request line (which proceeds to request-line
parsing and succeeds). -/
theorem c6_request_line_min_len_witness :
    Request.tryFrom
        [71, 69, 84, 32, 72, 84, 84, 80, 47, 49, 46, 13, 10, 13, 10] =
      .error .invalidRequest ∧
    Request.tryFrom c6Input =
      (match RequestLine.tryFrom (c6Input.take 14) with
       | .error e => .error e
       | .ok requestLine => requestTryFromRest c6Input 14 requestLine) := by
  constructor
  · exact (c6_request_line_min_len
      [71, 69, 84, 32, 72, 84, 84, 80, 47, 49, 46, 13, 10, 13, 10] 11
      (by decide)).1 (by decide)
  · exact (c6_request_line_min_len c6Input 14 (by decide)).2 (by decide)

/-! ### Claim C5 -/

/-- The byte stream `PATCH /machine-config HTTP/1.1` CRLF
`Content-Length: 13` CRLF CRLF `whatever`: a complete request line and
header block declaring 13 body bytes, followed by only 8 body bytes. -/
def c5Input : List Nat :=
  [80, 65, 84, 67, 72, 32, 47, 109, 97, 99, 104, 105, 110, 101, 45, 99,
   111, 110, 102, 105, 103, 32, 72, 84, 84, 80, 47, 49, 46, 49, 13, 10,
   67, 111, 110, 116, 101, 110, 116, 45, 76, 101, 110, 103, 116, 104, 58,
   32, 49, 51, 13, 10, 13, 10, 119, 104, 97, 116, 101, 118, 101, 114]

/-- C5 counterexample: on a buffer holding a complete request line and
header block but fewer body bytes than the declared `Content-Length`,
`Request::try_from` *is* an error — it returns `Err(InvalidRequest)` —
contradicting the claim that partial input is not an error and simply
yields no request. -/
theorem c5_counterexample :
    Request.tryFrom c5Input = Except.error .invalidRequest := by
  decide

/-- C5 (amended): `Request::try_from` is a one-shot parser with no notion
of restartable/partial input: for every buffer consisting of a parseable
request line, a header block whose `Content-Length` is nonzero, and fewer
body bytes than that `Content-Length` (as a usize), the whole parse
returns `Err(InvalidRequest)` rather than yielding no request and saving
the bytes (the framing positions of the CRLF and CRLFCRLF terminators
enter as hypotheses). -/
theorem c5_partial_body_is_error (rl hb body : List Nat) (L : RequestLine)
    (H : Headers)
    (h1 : find (rl ++ ([CR, LF] ++ (hb ++ ([CR, LF, CR, LF] ++ body))))
        [CR, LF] = some rl.length)
    (h2 : 14 ≤ rl.length)
    (h3 : RequestLine.tryFrom rl = .ok L)
    (h4 : find ([CR, LF] ++ (hb ++ ([CR, LF, CR, LF] ++ body)))
        [CR, LF, CR, LF] = some (hb.length + CRLF_LEN))
    (h5 : Headers.tryFrom hb = .ok H)
    (h6 : ¬ H.contentLength = 0)
    (h7 : body.length < i32AsUsize H.contentLength) :
    Request.tryFrom (rl ++ ([CR, LF] ++ (hb ++ ([CR, LF, CR, LF] ++ body)))) =
      .error .invalidRequest := by
  set s := rl ++ ([CR, LF] ++ (hb ++ ([CR, LF, CR, LF] ++ body))) with hs
  have htake : s.take rl.length = rl := by
    rw [hs, List.take_left]
  have hmain := (c6_request_line_min_len s rl.length h1).2 h2
  rw [hmain, htake, h3]
  have hdrop : s.drop rl.length = [CR, LF] ++ (hb ++ ([CR, LF, CR, LF] ++ body)) := by
    rw [hs, List.drop_left]
  have e1 : rl.length + CRLF_LEN = (rl ++ [CR, LF]).length := by
    simp [CRLF_LEN]
  have hdrop2 : s.drop (rl.length + CRLF_LEN) =
      hb ++ ([CR, LF, CR, LF] ++ body) := by
    rw [e1, hs, ← List.append_assoc, List.drop_left]
  obtain ⟨k, hk⟩ : ∃ k, hb.length + CRLF_LEN = k + 1 :=
    ⟨hb.length + 1, by simp [CRLF_LEN]⟩
  simp only [requestTryFromRest, hdrop, h4, hk]
  have e2 : k + 1 - CRLF_LEN = hb.length := by
    simp only [CRLF_LEN] at hk ⊢
    omega
  rw [e2, hdrop2]
  have htake2 : (hb ++ ([CR, LF, CR, LF] ++ body)).take hb.length = hb :=
    List.take_left _ _
  rw [htake2, h5]
  simp only [if_neg h6]
  have hlencond : (hb ++ ([CR, LF, CR, LF] ++ body)).length -
      (hb.length + 2 * CRLF_LEN) = body.length := by
    simp only [List.length_append, List.length_cons, List.length_nil, CRLF_LEN]
    omega
  rw [if_pos (by rw [hlencond]; exact h7)]

/-- C5 witness: instantiation of `c5_partial_body_is_error` at the
concrete pieces of `c5Input` (13 declared body bytes, 8 present). -/
theorem c5_partial_body_is_error_witness :
    Request.tryFrom
        ([80, 65, 84, 67, 72, 32, 47, 109, 97, 99, 104, 105, 110, 101, 45,
          99, 111, 110, 102, 105, 103, 32, 72, 84, 84, 80, 47, 49, 46, 49] ++
         ([CR, LF] ++
          ([67, 111, 110, 116, 101, 110, 116, 45, 76, 101, 110, 103, 116,
            104, 58, 32, 49, 51] ++
           ([CR, LF, CR, LF] ++ [119, 104, 97, 116, 101, 118, 101, 114])))) =
      .error .invalidRequest :=
  c5_partial_body_is_error
    [80, 65, 84, 67, 72, 32, 47, 109, 97, 99, 104, 105, 110, 101, 45, 99,
     111, 110, 102, 105, 103, 32, 72, 84, 84, 80, 47, 49, 46, 49]
    [67, 111, 110, 116, 101, 110, 116, 45, 76, 101, 110, 103, 116, 104, 58,
     32, 49, 51]
    [119, 104, 97, 116, 101, 118, 101, 114]
    ⟨.patch,
     ⟨[47, 109, 97, 99, 104, 105, 110, 101, 45, 99, 111, 110, 102, 105, 103]⟩,
     .http11⟩
    ⟨13, []⟩
    (by decide) (by decide) (by decide) (by decide) (by decide) (by decide)
    (by decide)

/-! ### Server-model lemmas for claims C3 and C8 -/

theorem connUpdate_length (m : List (Nat × ClientConnection)) (fd : Nat)
    (c : ClientConnection) : (connUpdate m fd c).length = m.length := by
  simp [connUpdate]

theorem connInsert_length (m : List (Nat × ClientConnection)) (fd : Nat)
    (c : ClientConnection) : (connInsert m fd c).length ≤ m.length + 1 := by
  unfold connInsert
  by_cases h : (connLookup m fd).isSome
  · rw [if_pos h, connUpdate_length]
    omega
  · rw [if_neg h]
    simp

theorem connLookup_update_isSome (m : List (Nat × ClientConnection))
    (k fd : Nat) (c : ClientConnection) :
    (connLookup (connUpdate m k c) fd).isSome = (connLookup m fd).isSome := by
  induction m with
  | nil => rfl
  | cons p t ih =>
    simp only [connUpdate, List.map_cons] at ih ⊢
    by_cases hk : p.1 = k
    · by_cases hfd : k = fd
      · subst hfd
        simp [connLookup, hk]
      · have hpfd : ¬ p.1 = fd := by rw [hk]; exact hfd
        simp [connLookup, hk, hfd, hpfd, ih]
    · by_cases hfd : p.1 = fd
      · have hfk : ¬ fd = k := by rw [← hfd]; exact hk
        simp [connLookup, hk, hfd, hfk]
      · simp [connLookup, hk, hfd, ih]

theorem connLookup_append_isSome (m : List (Nat × ClientConnection))
    (k fd : Nat) (c : ClientConnection)
    (h : (connLookup m fd).isSome = true) :
    (connLookup (m ++ [(k, c)]) fd).isSome = true := by
  induction m with
  | nil => simp [connLookup] at h
  | cons p t ih =>
    by_cases hfd : p.1 = fd
    · simp [connLookup, hfd]
    · simp only [connLookup, if_neg hfd] at h
      simp only [List.cons_append, connLookup, if_neg hfd]
      exact ih h

theorem connLookup_insert_isSome (m : List (Nat × ClientConnection))
    (k fd : Nat) (c : ClientConnection)
    (h : (connLookup m fd).isSome = true) :
    (connLookup (connInsert m k c) fd).isSome = true := by
  unfold connInsert
  by_cases hk : (connLookup m k).isSome
  · rw [if_pos hk, connLookup_update_isSome]
    exact h
  · rw [if_neg hk]
    exact connLookup_append_isSome m k fd c h

theorem processEvent_length_le (s : ServerState) (e : Event)
    (s' : ServerState) (y : Nat) (r : List (Nat × List Nat))
    (hlen : s.conns.length ≤ maxConnections)
    (h : processEvent s e = .ok s' y r) :
    s'.conns.length ≤ maxConnections := by
  by_cases hfd : e.fd = s.listenerFd
  · simp only [processEvent, if_pos hfd, handleAccept] at h
    by_cases hfull : s.conns.length = maxConnections
    · rw [if_pos hfull] at h
      cases h
      exact hlen
    · rw [if_neg hfull] at h
      cases h
      show (connInsert s.conns e.acceptFd ClientConnection.new).length ≤
        maxConnections
      have := connInsert_length s.conns e.acceptFd ClientConnection.new
      omega
  · simp only [processEvent, if_neg hfd] at h
    cases hl : connLookup s.conns e.fd with
    | none =>
      simp only [hl] at h
      cases h
    | some c =>
      simp only [hl] at h
      cases hk : e.kind with
      | canRead o =>
        simp only [hk] at h
        cases h
        show (connUpdate s.conns e.fd (c.read o).1).length ≤ maxConnections
        rw [connUpdate_length]
        exact hlen
      | canWrite o =>
        simp only [hk] at h
        cases hw : c.write o with
        | error u =>
          simp only [hw] at h
          cases h
        | ok c' =>
          simp only [hw] at h
          cases h
          show (connUpdate s.conns e.fd c').length ≤ maxConnections
          rw [connUpdate_length]
          exact hlen
      | neither =>
        simp only [hk] at h
        cases h
        exact hlen

theorem processEvents_length_le (events : List Event) :
    ∀ (s : ServerState) (y0 : Nat) (r0 : List (Nat × List Nat))
      (s' : ServerState) (y : Nat) (r : List (Nat × List Nat)),
      s.conns.length ≤ maxConnections →
      processEvents s events y0 r0 = .ok s' y r →
      s'.conns.length ≤ maxConnections := by
  induction events with
  | nil =>
    intro s y0 r0 s' y r hlen h
    simp only [processEvents] at h
    cases h
    exact hlen
  | cons e rest ih =>
    intro s y0 r0 s' y r hlen h
    simp only [processEvents] at h
    cases hpe : processEvent s e with
    | panic =>
      simp only [hpe] at h
      cases h
    | fail =>
      simp only [hpe] at h
      cases h
    | ok s1 y1 r1 =>
      simp only [hpe] at h
      exact ih s1 _ _ s' y r (processEvent_length_le s e s1 y1 r1 hlen hpe) h

theorem sweepConns_length_le (m : List (Nat × ClientConnection)) :
    (sweepConns m).length ≤ m.length :=
  List.length_filter_le _ m

theorem requestsStep_length_le (s : ServerState) (events : List Event)
    (s' : ServerState) (y : Nat) (r : List (Nat × List Nat))
    (hlen : s.conns.length ≤ maxConnections)
    (h : requestsStep s events = .ok s' y r) :
    s'.conns.length ≤ maxConnections := by
  unfold requestsStep at h
  cases hpe : processEvents s events 0 [] with
  | panic =>
    simp only [hpe] at h
    cases h
  | fail =>
    simp only [hpe] at h
    cases h
  | ok s1 y1 r1 =>
    simp only [hpe] at h
    have hs' : s' = { s1 with conns := sweepConns s1.conns } := by
      cases h
      rfl
    subst hs'
    have h1 := processEvents_length_le events s 0 [] s1 y1 r1 hlen hpe
    have h2 := sweepConns_length_le s1.conns
    show (sweepConns s1.conns).length ≤ maxConnections
    omega

theorem respondStep_length_le (s : ServerState) (id : Nat)
    (hlen : s.conns.length ≤ maxConnections) :
    (respondStep s id).conns.length ≤ maxConnections := by
  unfold respondStep
  cases connLookup s.conns id with
  | none => exact hlen
  | some c =>
    show (connUpdate s.conns id _).length ≤ maxConnections
    rw [connUpdate_length]
    exact hlen

theorem processEvent_keeps_conns (s : ServerState) (e : Event)
    (s' : ServerState) (y : Nat) (r : List (Nat × List Nat)) (fd : Nat)
    (h : processEvent s e = .ok s' y r)
    (hmem : (connLookup s.conns fd).isSome = true) :
    (connLookup s'.conns fd).isSome = true := by
  by_cases hfd : e.fd = s.listenerFd
  · simp only [processEvent, if_pos hfd, handleAccept] at h
    by_cases hfull : s.conns.length = maxConnections
    · rw [if_pos hfull] at h
      cases h
      exact hmem
    · rw [if_neg hfull] at h
      cases h
      exact connLookup_insert_isSome s.conns e.acceptFd fd ClientConnection.new hmem
  · simp only [processEvent, if_neg hfd] at h
    cases hl : connLookup s.conns e.fd with
    | none =>
      simp only [hl] at h
      cases h
    | some c =>
      simp only [hl] at h
      cases hk : e.kind with
      | canRead o =>
        simp only [hk] at h
        cases h
        show (connLookup (connUpdate s.conns e.fd (c.read o).1) fd).isSome = true
        rw [connLookup_update_isSome]
        exact hmem
      | canWrite o =>
        simp only [hk] at h
        cases hw : c.write o with
        | error u =>
          simp only [hw] at h
          cases h
        | ok c' =>
          simp only [hw] at h
          cases h
          show (connLookup (connUpdate s.conns e.fd c') fd).isSome = true
          rw [connLookup_update_isSome]
          exact hmem
      | neither =>
        simp only [hk] at h
        cases h
        exact hmem

theorem processEvents_keeps_conns (events : List Event) :
    ∀ (s : ServerState) (y0 : Nat) (r0 : List (Nat × List Nat))
      (s' : ServerState) (y : Nat) (r : List (Nat × List Nat)) (fd : Nat),
      processEvents s events y0 r0 = .ok s' y r →
      (connLookup s.conns fd).isSome = true →
      (connLookup s'.conns fd).isSome = true := by
  induction events with
  | nil =>
    intro s y0 r0 s' y r fd h hmem
    simp only [processEvents] at h
    cases h
    exact hmem
  | cons e rest ih =>
    intro s y0 r0 s' y r fd h hmem
    simp only [processEvents] at h
    cases hpe : processEvent s e with
    | panic =>
      simp only [hpe] at h
      cases h
    | fail =>
      simp only [hpe] at h
      cases h
    | ok s1 y1 r1 =>
      simp only [hpe] at h
      exact ih s1 _ _ s' y r fd h
        (processEvent_keeps_conns s e s1 y1 r1 fd hpe hmem)

theorem respondStep_keeps_conns (s : ServerState) (id fd : Nat) :
    (connLookup (respondStep s id).conns fd).isSome =
      (connLookup s.conns fd).isSome := by
  unfold respondStep
  cases connLookup s.conns id with
  | none => rfl
  | some c =>
    show (connLookup (connUpdate s.conns id _) fd).isSome = _
    rw [connLookup_update_isSome]

/-! ### Claim C3 -/

/-- C3: (1) in every state reachable by `requests()` and `respond()` calls
from a fresh server, the connections map holds at most
`MAX_CONNECTIONS` (10) entries; (2) when an accept event arrives while the
map holds exactly `MAX_CONNECTIONS` connections, the accepted stream is
written exactly the literal `SERVER_FULL_ERROR_MESSAGE` payload once and
is not inserted — the server state (hence every existing connection) is
returned unchanged. -/
theorem c3_capacity_bound :
    (∀ s : ServerState, Reachable s → s.conns.length ≤ maxConnections) ∧
    (∀ (s : ServerState) (e : Event), s.conns.length = maxConnections →
      e.fd = s.listenerFd →
      processEvent s e = .ok s 0 [(e.acceptFd, serverFullErrorMessage)]) := by
  constructor
  · intro s hreach
    induction hreach with
    | init lfd => simp
    | requests events hr hstep ih => exact requestsStep_length_le _ events _ _ _ ih hstep
    | respond id hr ih => exact respondStep_length_le _ id ih
  · intro s e hfull hfd
    simp [processEvent, if_pos hfd, handleAccept, if_pos hfull]

/-- A server at full capacity: ten open connections. -/
def c3FullState : ServerState :=
  ⟨0, [(1, ClientConnection.new), (2, ClientConnection.new),
       (3, ClientConnection.new), (4, ClientConnection.new),
       (5, ClientConnection.new), (6, ClientConnection.new),
       (7, ClientConnection.new), (8, ClientConnection.new),
       (9, ClientConnection.new), (10, ClientConnection.new)]⟩

/-- C3 witness: the fresh server satisfies the bound, and on a full server
(ten connections) an accept event returns the state unchanged with exactly
one write of the 503 payload to the new stream. -/
theorem c3_capacity_bound_witness :
    (⟨0, []⟩ : ServerState).conns.length ≤ maxConnections ∧
    processEvent c3FullState ⟨0, .neither, 99⟩ =
      .ok c3FullState 0 [(99, serverFullErrorMessage)] := by
  refine ⟨c3_capacity_bound.1 ⟨0, []⟩ (Reachable.init 0), ?_⟩
  exact c3_capacity_bound.2 c3FullState ⟨0, .neither, 99⟩ (by decide) rfl

/-! ### Claim C8 -/

/-- C8: (1) `ClientConnection::is_done` returns true exactly when the
state is `Closed`, nothing is pending to write, and the in-flight count is
0; (2) `requests()` is the event processing followed by the end-of-call
sweep of the connections map; (3) the sweep retains exactly the entries
whose `is_done()` is false — an entry is removed by it exactly when
`is_done()` holds; (4) no connection is removed while the events are being
processed (removal never happens earlier than the sweep); and (5)
`respond()` never removes a connection. -/
theorem c8_reap_iff_done :
    (∀ c : ClientConnection, c.isDone = true ↔
      (c.state = .closed ∧ c.pendingWrite = false ∧ c.inFlight = 0)) ∧
    (∀ (s : ServerState) (events : List Event) (s' : ServerState) (y : Nat)
        (r : List (Nat × List Nat)),
      processEvents s events 0 [] = .ok s' y r →
      requestsStep s events = .ok { s' with conns := sweepConns s'.conns } y r) ∧
    (∀ (m : List (Nat × ClientConnection)) (p : Nat × ClientConnection),
      p ∈ sweepConns m ↔ p ∈ m ∧ p.2.isDone = false) ∧
    (∀ (s : ServerState) (events : List Event) (s' : ServerState) (y : Nat)
        (r : List (Nat × List Nat)) (fd : Nat),
      processEvents s events 0 [] = .ok s' y r →
      (connLookup s.conns fd).isSome = true →
      (connLookup s'.conns fd).isSome = true) ∧
    (∀ (s : ServerState) (id fd : Nat),
      (connLookup (respondStep s id).conns fd).isSome =
        (connLookup s.conns fd).isSome) := by
  refine ⟨?_, ?_, ?_, ?_, ?_⟩
  · intro c
    simp only [ClientConnection.isDone, Bool.and_eq_true, decide_eq_true_eq,
      Bool.not_eq_true']
    tauto
  · intro s events s' y r h
    simp only [requestsStep, h]
  · intro m p
    simp [sweepConns, List.mem_filter, Bool.not_eq_true']
  · intro s events s' y r fd h hmem
    exact processEvents_keeps_conns events s 0 [] s' y r fd h hmem
  · intro s id fd
    exact respondStep_keeps_conns s id fd

/-- A closed, drained connection with no in-flight responses. -/
def cDone : ClientConnection := ⟨.closed, false, 0⟩

/-- A one-connection server holding `cDone` under fd 3. -/
def c8State : ServerState := ⟨0, [(3, cDone)]⟩

/-- C8 witness: instantiations of `c8_reap_iff_done` — `cDone` is done;
an empty event batch on `c8State` sweeps it out; the sweep membership at
`cDone`'s entry; key retention through an empty batch; and `respond` on a
missing id preserving the key set. -/
theorem c8_reap_iff_done_witness :
    (cDone.isDone = true) ∧
    requestsStep c8State [] =
      .ok { c8State with conns := sweepConns c8State.conns } 0 [] ∧
    ¬ ((3, cDone) ∈ sweepConns c8State.conns) ∧
    (connLookup c8State.conns 3).isSome = true ∧
    (connLookup (respondStep c8State 7).conns 3).isSome =
      (connLookup c8State.conns 3).isSome := by
  refine ⟨?_, ?_, ?_, by decide, c8_reap_iff_done.2.2.2.2 c8State 7 3⟩
  · exact (c8_reap_iff_done.1 cDone).mpr ⟨rfl, rfl, rfl⟩
  · exact c8_reap_iff_done.2.1 c8State [] c8State 0 [] rfl
  · intro hmem
    have h := (c8_reap_iff_done.2.2.1 c8State.conns (3, cDone)).mp hmem
    have : cDone.isDone = true := (c8_reap_iff_done.1 cDone).mpr ⟨rfl, rfl, rfl⟩
    rw [this] at h
    exact absurd h.2 (by decide)

/-! ### Lemmas for claim C7 -/

theorem validUtf8_of_ascii {l : List Nat} (h : ∀ b ∈ l, b < 128) :
    validUtf8 l = true := by
  have := validUtf8_ascii_append [] h
  simpa using this

theorem statusCode_raw_digits (st : StatusCode) :
    ∀ b ∈ st.raw, 48 ≤ b ∧ b ≤ 57 := by
  cases st <;> decide

theorem version_raw_ascii (v : Version) :
    ∀ b ∈ v.raw, b < 128 ∧ b ≠ 13 ∧ b ≠ 32 := by
  cases v <;> decide

theorem version_raw_length (v : Version) : v.raw.length = 8 := by
  cases v <;> rfl

theorem statusCode_raw_length (st : StatusCode) : st.raw.length = 3 := by
  cases st <;> rfl

theorem version_tryFrom_raw (v : Version) : Version.tryFrom v.raw = .ok v := by
  cases v <;> decide

theorem statusCode_tryFrom_raw (st : StatusCode) :
    StatusCode.tryFrom st.raw = .ok st := by
  cases st <;> decide

theorem digit_not_ws {d : Nat} (h : 48 ≤ d ∧ d ≤ 57) : isWsByte d = false := by
  simp only [isWsByte, Bool.or_eq_false_iff, decide_eq_false_iff_not]
  omega

theorem trimBytes_digits (n : Nat) : trimBytes (natToBytes n) = natToBytes n :=
  trimBytes_eq_self fun d hd => digit_not_ws (natToBytes_digits n d hd)

theorem usizeAsI32_small {n : Nat} (h : n < 2 ^ 31) :
    usizeAsI32 n = Int.ofNat n := by
  unfold usizeAsI32
  have hm : n % 2 ^ 32 = n := Nat.mod_eq_of_lt (by omega)
  rw [hm, if_pos h]
  rfl

theorem i32ToBytes_ofNat (n : Nat) : i32ToBytes (Int.ofNat n) = natToBytes n := by
  unfold i32ToBytes
  rw [if_neg (by exact Int.not_lt.mpr (Int.ofNat_nonneg n))]
  rfl

theorem sl12_no_cr (v : Version) (st : StatusCode) :
    ∀ x ∈ v.raw ++ [SP] ++ st.raw, x ≠ CR := by
  intro x hx
  simp only [List.append_assoc, List.mem_append, List.mem_singleton] at hx
  rcases hx with hx | hx | hx
  · exact (version_raw_ascii v x hx).2.1
  · subst hx; decide
  · have hd := statusCode_raw_digits st x hx
    intro hc
    subst hc
    exact absurd hd (by decide)

theorem clpart_no_cr (n : Nat) :
    ∀ x ∈ contentLengthKeyBytes ++ colonSpSep ++ natToBytes n, x ≠ CR := by
  intro x hx
  simp only [List.append_assoc, List.mem_append] at hx
  rcases hx with hx | hx | hx
  · intro hc; subst hc; exact absurd hx (by decide)
  · intro hc; subst hc; exact absurd hx (by decide)
  · have hd := natToBytes_digits n x hx
    intro hc
    subst hc
    exact absurd hd (by decide)

theorem statusLineTryFrom_raw (v : Version) (st : StatusCode) :
    statusLineTryFrom (v.raw ++ [SP] ++ st.raw) = .ok (v, st, none) := by
  have hfind : find (v.raw ++ [SP] ++ st.raw) [SP] = some 8 := by
    have hno : ∀ x ∈ v.raw, x ≠ SP := fun x hx => (version_raw_ascii v x hx).2.2
    have hm := find_marker (c := SP) [] st.raw hno
    rw [version_raw_length] at hm
    exact hm
  have htake : (v.raw ++ [SP] ++ st.raw).take 8 = v.raw := by
    rw [← version_raw_length v, List.append_assoc, List.take_left]
  have hdrop : (v.raw ++ [SP] ++ st.raw).drop (8 + 1) = st.raw := by
    have h9 : (8 : Nat) + 1 = (v.raw ++ [SP]).length := by
      simp [version_raw_length]
    rw [h9, List.drop_left]
  have hnone : find st.raw [SP] = none := by
    apply find_eq_none_no_head (c := SP) []
    intro x hx
    have hd := statusCode_raw_digits st x hx
    intro hc
    subst hc
    exact absurd hd (by decide)
  simp only [statusLineTryFrom, parseStatusLine, hfind, htake, hdrop, hnone,
    version_tryFrom_raw, statusCode_tryFrom_raw]
  simp

theorem headersTryFrom_clpart (n : Nat) (hn : n ≤ 2147483647) :
    Headers.tryFrom (contentLengthKeyBytes ++ colonSpSep ++ natToBytes n) =
      .ok ⟨Int.ofNat n, []⟩ := by
  have hkey128 : ∀ y ∈ contentLengthKeyBytes, y < 128 := by decide
  have hsep128 : ∀ y ∈ colonSpSep, y < 128 := by decide
  have hdig : ∀ y ∈ natToBytes n, 48 ≤ y ∧ y ≤ 57 := natToBytes_digits n
  have hascii : ∀ x ∈ contentLengthKeyBytes ++ colonSpSep ++ natToBytes n,
      x < 128 := by
    intro x hx
    simp only [List.append_assoc, List.mem_append] at hx
    rcases hx with hx | hx | hx
    · exact hkey128 x hx
    · exact hsep128 x hx
    · have := hdig x hx; omega
  have hutf : validUtf8 (contentLengthKeyBytes ++ colonSpSep ++ natToBytes n) =
      true := validUtf8_of_ascii hascii
  have hsplit : splitSeq (contentLengthKeyBytes ++ colonSpSep ++ natToBytes n)
      [CR, LF] = [contentLengthKeyBytes ++ colonSpSep ++ natToBytes n] :=
    splitSeq_of_find_none (find_eq_none_no_head [LF] (clpart_no_cr n))
  have hvdig : validUtf8 (natToBytes n) = true :=
    validUtf8_of_ascii (fun x hx => by have := hdig x hx; omega)
  have hnc : find (natToBytes n) colonSpSep = none := by
    apply find_eq_none_no_head (c := 58) [32]
    intro x hx
    have := hdig x hx
    omega
  have hline := parseHeaderLine_contentLength_eq Headers.default
    (natToBytes n) hvdig hnc
  rw [trimBytes_digits, parseI32_natToBytes hn] at hline
  have hne : (contentLengthKeyBytes ++ colonSpSep ++ natToBytes n).isEmpty =
      false := rfl
  unfold Headers.tryFrom
  rw [if_pos hutf, hsplit]
  simp only [headersFromLines, hne, Bool.false_eq_true, if_false, hline]
  rfl

/-- C7 (amended): for every `Response` built as `Response::new` plus
`with_body(b)` (no extra headers) with `1 ≤ len(b) ≤ 987` — the largest
body for which the serialized response fits the 1024-byte receive
buffer — `Response::send` writes the status line followed by a
`Content-Length` header whose decimal value is exactly `len(b)` and then
the body, and `Response::receive` parses those bytes back to the identical
response (same body `b`, same `content_length = len(b)`).  (For larger
bodies the round trip fails; see the counterexample.) -/
theorem c7_response_roundtrip (v : Version) (st : StatusCode) (b : List Nat)
    (h1 : 1 ≤ b.length) (h2 : b.length ≤ 987) :
    Response.send ((Response.new v st).withBody b) =
      v.raw ++ [SP] ++ st.raw ++ [CR, LF] ++ contentLengthKeyBytes ++
        colonSpSep ++ natToBytes b.length ++ [CR, LF] ++ [CR, LF] ++ b ∧
    Response.receive (Response.send ((Response.new v st).withBody b)) =
      .ok ((Response.new v st).withBody b) := by
  have hcl : usizeAsI32 b.length = Int.ofNat b.length :=
    usizeAsI32_small (by omega)
  have hpos : (0 : Int) < Int.ofNat b.length := by
    have h0 : Int.ofNat 0 < Int.ofNat b.length := Int.ofNat_lt.mpr (by omega)
    simpa using h0
  have hwire : Response.send ((Response.new v st).withBody b) =
      v.raw ++ [SP] ++ st.raw ++ [CR, LF] ++ contentLengthKeyBytes ++
        colonSpSep ++ natToBytes b.length ++ [CR, LF] ++ [CR, LF] ++ b := by
    simp only [Response.send, Response.new, Response.withBody,
      Headers.setContentLength, Headers.default, statusLineWriteAll,
      Headers.writeAll, hcl, i32ToBytes_ofNat]
    rw [if_pos hpos]
    simp [List.append_assoc]
  refine ⟨hwire, ?_⟩
  rw [hwire]
  set D := natToBytes b.length with hD
  set W := v.raw ++ [SP] ++ st.raw ++ [CR, LF] ++ contentLengthKeyBytes ++
    colonSpSep ++ D ++ [CR, LF] ++ [CR, LF] ++ b with hW
  have hlenck : contentLengthKeyBytes.length = 14 := rfl
  have hlencs : colonSpSep.length = 2 := rfl
  have hd3 : D.length ≤ 3 := natToBytes_length_le 3 b.length (by omega) (by omega)
  have hsl12len : (v.raw ++ [SP] ++ st.raw).length = 12 := by
    simp [version_raw_length, statusCode_raw_length]
  have hWlen : W.length = 34 + D.length + b.length := by
    rw [hW]
    simp [List.length_append, version_raw_length, statusCode_raw_length,
      hlenck, hlencs]
    omega
  have hWle : W.length ≤ 1024 := by omega
  have hW0 : ¬ (W.length = 0) := by omega
  have hmin : min 1024 W.length = W.length := by omega
  have htk1024 : W.take 1024 = W := List.take_of_length_le hWle
  simp only [Response.receive, hmin, htk1024, if_neg hW0]
  set P := List.replicate (1024 - W.length) 0 with hP
  have hshape1 : W ++ P = (v.raw ++ [SP] ++ st.raw) ++ [CR, LF] ++
      ((contentLengthKeyBytes ++ colonSpSep ++ D) ++ [CR, LF, CR, LF] ++
        (b ++ P)) := by
    rw [hW]
    simp [List.append_assoc]
  have hfind1 : find (W ++ P) [CR, LF] = some 12 := by
    rw [hshape1]
    have hm := find_marker (c := CR) [LF]
      ((contentLengthKeyBytes ++ colonSpSep ++ D) ++ [CR, LF, CR, LF] ++
        (b ++ P)) (sl12_no_cr v st)
    rw [hm, hsl12len]
  have htkW : (W ++ P).take W.length = W := List.take_left W P
  have hshape2 : W = (v.raw ++ [SP] ++ st.raw ++ [CR, LF]) ++
      ((contentLengthKeyBytes ++ colonSpSep ++ D) ++ [CR, LF, CR, LF] ++ b) := by
    rw [hW]
    simp [List.append_assoc]
  have hdropW : W.drop (12 + CRLF_LEN) =
      (contentLengthKeyBytes ++ colonSpSep ++ D) ++ [CR, LF, CR, LF] ++ b := by
    have h14 : 12 + CRLF_LEN = (v.raw ++ [SP] ++ st.raw ++ [CR, LF]).length := by
      simp [version_raw_length, statusCode_raw_length, CRLF_LEN]
    rw [h14]
    conv_lhs => rw [hshape2]
    exact List.drop_left _ _
  have hfind2 : find ((contentLengthKeyBytes ++ colonSpSep ++ D) ++
      [CR, LF, CR, LF] ++ b) [CR, LF, CR, LF] =
      some (contentLengthKeyBytes ++ colonSpSep ++ D).length :=
    find_marker (c := CR) [LF, CR, LF] b (by rw [hD]; exact clpart_no_cr b.length)
  simp only [hfind1, htkW, hdropW, hfind2, receiveParsed]
  have hsplit12 : W ++ P = (v.raw ++ [SP] ++ st.raw) ++
      ([CR, LF] ++ ((contentLengthKeyBytes ++ colonSpSep ++ D) ++
        [CR, LF, CR, LF] ++ (b ++ P))) := by
    rw [hW]
    simp [List.append_assoc]
  have htk12 : (W ++ P).take 12 = v.raw ++ [SP] ++ st.raw := by
    rw [hsplit12,
      show (12 : Nat) = (v.raw ++ [SP] ++ st.raw).length from hsl12len.symm]
    exact List.take_left _ _
  have htkCL : ((contentLengthKeyBytes ++ colonSpSep ++ D) ++
      [CR, LF, CR, LF] ++ b).take
      (contentLengthKeyBytes ++ colonSpSep ++ D).length =
      contentLengthKeyBytes ++ colonSpSep ++ D := by
    rw [List.append_assoc (contentLengthKeyBytes ++ colonSpSep ++ D)
      [CR, LF, CR, LF] b]
    exact List.take_left _ _
  have hht : Headers.tryFrom (contentLengthKeyBytes ++ colonSpSep ++ D) =
      .ok ⟨Int.ofNat b.length, []⟩ := by
    rw [hD]
    exact headersTryFrom_clpart b.length (by omega)
  have hdropB : ((contentLengthKeyBytes ++ colonSpSep ++ D) ++
      [CR, LF, CR, LF] ++ b).drop
      ((contentLengthKeyBytes ++ colonSpSep ++ D).length + 2 * CRLF_LEN) = b := by
    have he : (contentLengthKeyBytes ++ colonSpSep ++ D).length + 2 * CRLF_LEN =
        ((contentLengthKeyBytes ++ colonSpSep ++ D) ++ [CR, LF, CR, LF]).length := by
      simp only [List.length_append, List.length_cons, List.length_nil, CRLF_LEN]
    rw [he]
    exact List.drop_left _ _
  simp only [htk12, statusLineTryFrom_raw, htkCL, hht, hdropB]
  rw [if_pos (ne_of_gt hpos)]
  simp [Response.withBody, Response.new, Headers.setContentLength,
    Headers.default]

/-- C7 witness: instantiation of `c7_response_roundtrip` at an OK response
with the one-byte body `a`. -/
theorem c7_response_roundtrip_witness :
    Response.send ((Response.new .http11 .ok200).withBody [97]) =
      Version.http11.raw ++ [SP] ++ StatusCode.ok200.raw ++ [CR, LF] ++
        contentLengthKeyBytes ++ colonSpSep ++ natToBytes 1 ++
        [CR, LF] ++ [CR, LF] ++ [97] ∧
    Response.receive
        (Response.send ((Response.new .http11 .ok200).withBody [97])) =
      .ok ((Response.new .http11 .ok200).withBody [97]) :=
  c7_response_roundtrip .http11 .ok200 [97] (by decide) (by decide)

/-- A body one byte too large for the receive buffer: 988 bytes of `a`
(serialized response size 1025 > 1024). -/
def c7BigBody : List Nat := List.replicate 988 97

set_option maxRecDepth 1000000 in
/-- C7 counterexample: for the 988-byte body, `Response::receive` of the
sent bytes yields a response whose body is only the 987 buffered bytes and
whose `content_length` is 987 — not the original body and not `len(b)` —
because the single 1024-byte `read` truncates the stream and the
`read_exact` for the remainder targets an empty slice.  So the claim's
unrestricted round trip is false. -/
theorem c7_counterexample :
    Response.receive (Response.send ((Response.new .http11 .ok200).withBody
        c7BigBody)) =
      Except.ok ((Response.new .http11 .ok200).withBody
        (List.replicate 987 97)) ∧
    ¬ (List.replicate 987 97 = c7BigBody) ∧
    ((Response.new .http11 .ok200).withBody
        (List.replicate 987 97)).headers.contentLength ≠
      Int.ofNat c7BigBody.length := by
  refine ⟨by decide, by decide, by decide⟩
